import Mathlib

/-! The header `bitmap.h`: a raster container and its 24-bit BMP codec.

A shallow embedding of `src/bitmap.h`.

* `size_type` (`unsigned int`) values are natural numbers below `U32`; every
  arithmetic step of the source that can wrap is taken modulo `U32`.
* `std::vector<std::vector<Color>>` is a list of lists.  An access
  `bitmap_[i][j]` outside the storage is undefined in C++; here it is the
  fault `Fault.bad_index`, so that a result `Except.ok` also says that no such
  access happened.
* Streams are lists of bytes (natural numbers below 256).
-/

namespace BitmapH

/-! ## Outcomes -/

/-- Ways an operation can fail to produce a value. -/
inductive Fault where
  /-- `std::out_of_range` thrown by `at`. -/
  | out_of_range
  /-- A `std::vector` was indexed or erased outside its storage. -/
  | bad_index
  /-- The code copied bytes out of a buffer that `istream::read` did not fill. -/
  | uninit_read
  deriving DecidableEq, Repr

/-- Result of a fallible step. -/
abbrev Res (α : Type) : Type := Except Fault α

/-! ## `unsigned int` arithmetic -/

/-- Number of values of `unsigned int` (`size_type`). -/
def U32 : Nat := 4294967296

/-- Source: `a + b` on `unsigned int`. -/
def add32 (a b : Nat) : Nat := (a + b) % U32

/-- Source: `a - b` on `unsigned int`. -/
def sub32 (a b : Nat) : Nat := (a % U32 + (U32 - b % U32)) % U32

/-- Source: `a * b` on `unsigned int`. -/
def mul32 (a b : Nat) : Nat := (a * b) % U32

/-- Source: `~a` on `unsigned int`. -/
def not32 (a : Nat) : Nat := U32 - 1 - a % U32

/-! ## Loops -/

/-- Source: `for (i = lo; i < hi; i++) body`, started at `i`.  Inside the body
`i < hi`, so `i++` does not wrap for a bound `hi` that is an `unsigned int`. -/
def forUp {σ : Type} (hi : Nat) (body : Nat → σ → Res σ) (i : Nat) (s : σ) : Res σ :=
  if i < hi then
    match body i s with
    | .ok s' => forUp hi body (i + 1) s'
    | .error e => .error e
  else .ok s
termination_by hi - i

/-- Source: `for (i = start; ~i; i--) body` over an `unsigned int` counter: the loop
stops when the counter is `0xFFFFFFFF`, and `i--` wraps from 0 to that value. -/
def forDown {σ : Type} (body : Nat → σ → Res σ) (i : Nat) (s : σ) : Res σ :=
  if not32 i ≠ 0 then
    match body i s with
    | .ok s' => forDown body (sub32 i 1) s'
    | .error e => .error e
  else .ok s
termination_by (i + 1) % U32
decreasing_by
  simp only [not32, sub32, U32] at *
  omega

/-- The counting loop with its number of remaining iterations made explicit;
`forUp_eq_fuel` shows it equal to `forUp`. -/
def forUpFuel {σ : Type} (body : Nat → σ → Res σ) : Nat → Nat → σ → Res σ
  | 0, _, s => .ok s
  | n + 1, i, s =>
    match body i s with
    | .ok s' => forUpFuel body n (i + 1) s'
    | .error e => .error e

/-- The descending loop with its number of remaining iterations made explicit;
`forDown_eq_fuel` shows it equal to `forDown`. -/
def forDownFuel {σ : Type} (body : Nat → σ → Res σ) : Nat → Nat → σ → Res σ
  | 0, _, s => .ok s
  | n + 1, i, s =>
    match body i s with
    | .ok s' => forDownFuel body n (sub32 i 1) s'
    | .error e => .error e

/-! ## Pixels -/

/-- Source: `struct Color24 { uint8_t b, g, r; }`. -/
structure Color24 where
  b : Nat
  g : Nat
  r : Nat
  deriving DecidableEq, Repr

/-- Source: `Color24() { r = g = b = 0; }`. -/
instance : Inhabited Color24 := ⟨⟨0, 0, 0⟩⟩

/-- Source: `Color24(uint8_t _r, uint8_t _g, uint8_t _b) : b(_b), g(_g), r(_r)`. -/
def Color24.ofRGB (r g b : Nat) : Color24 := ⟨b % 256, g % 256, r % 256⟩

/-! ## The raster -/

/-- Source: `template <class Color> class Bitmap`: the members `bitmap_`, `height_`,
`width_`. -/
structure Bitmap (Color : Type) where
  bitmap_ : List (List Color)
  height_ : Nat
  width_ : Nat
  deriving DecidableEq, Repr

variable {Color : Type}

/-- The argument `Bitmap& c` of `Insert`: the object `*this` itself, or another
object. -/
inductive InsertArg (Color : Type) where
  | itself : InsertArg Color
  | other (c : Bitmap Color) : InsertArg Color

/-- Source: `v[i]` on a `std::vector`. -/
def vecGet {α : Type} (v : List α) (i : Nat) : Res α :=
  match v[i]? with
  | some a => .ok a
  | none => .error .bad_index

/-- Source: `v[i] = a` on a `std::vector`. -/
def vecSet {α : Type} (v : List α) (i : Nat) (a : α) : Res (List α) :=
  if i < v.length then .ok (v.set i a) else .error .bad_index

/-- Source: `b[i][j]` read on the nested vector. -/
def cellGet (b : List (List Color)) (i j : Nat) : Res Color :=
  match vecGet b i with
  | .ok row => vecGet row j
  | .error e => .error e

/-- Source: `b[i][j] = c` on the nested vector. -/
def cellSet (b : List (List Color)) (i j : Nat) (c : Color) : Res (List (List Color)) :=
  match vecGet b i with
  | .ok row =>
    match vecSet row j c with
    | .ok row' => vecSet b i row'
    | .error e => .error e
  | .error e => .error e

/-- Source: `v.resize(n)`: truncate, or append value-initialised elements. -/
def vecResize {α : Type} [Inhabited α] (v : List α) (n : Nat) : List α :=
  v.take n ++ List.replicate (n - v.length) default

/-- Source: `v.erase(v.begin() + first, v.begin() + last)`. -/
def vecErase {α : Type} (v : List α) (first last : Nat) : Res (List α) :=
  if first ≤ last ∧ last ≤ v.length then .ok (v.take first ++ v.drop last)
  else .error .bad_index

/-- Source: `for (i = 0; i < n; i++) op(b[i])`: an in-place operation applied to each of
the rows `b[0]`, ..., `b[n-1]` in turn. -/
def eachRow (n : Nat) (op : List Color → Res (List Color)) (b : List (List Color)) :
    Res (List (List Color)) :=
  forUp n (fun i b =>
    match vecGet b i with
    | .error e => .error e
    | .ok row =>
      match op row with
      | .error e => .error e
      | .ok row' => vecSet b i row') 0 b

namespace Bitmap

/-- Source: `Bitmap() : height_(0), width_(0)`. -/
def empty : Bitmap Color := ⟨[], 0, 0⟩

/-- Source: `Bitmap(w, h) : bitmap_(h, std::vector<Color>(w)), height_(h), width_(w)`. -/
def mk2 [Inhabited Color] (w h : Nat) : Bitmap Color :=
  ⟨List.replicate h (List.replicate w default), h, w⟩

/-- Storage invariant: `height_` rows, each of `width_` elements, both
dimensions being `unsigned int` values. -/
def WF (self : Bitmap Color) : Prop :=
  self.bitmap_.length = self.height_ ∧
  (∀ row ∈ self.bitmap_, row.length = self.width_) ∧
  self.width_ < U32 ∧ self.height_ < U32

instance (self : Bitmap Color) : Decidable self.WF := by
  unfold WF; infer_instance

/-- Source: `Row(bitmap_, r)` / `RowConst(bitmap_, r)`: what `operator[](x)` returns. -/
structure Row (Color : Type) where
  b_ : List (List Color)
  r_ : Nat

/-- Source: `Row::operator[](z)`: `b_[z][r_]`. -/
def Row.index (row : Row Color) (z : Nat) : Res Color := cellGet row.b_ z row.r_

/-- Source: `Bitmap::operator[](x)`: `Row(bitmap_, x)`. -/
def index (self : Bitmap Color) (x : Nat) : Row Color := ⟨self.bitmap_, x⟩

/-- Source: `Bitmap::at(x, y)`. -/
def «at» (self : Bitmap Color) (x y : Nat) : Res Color :=
  if x ≥ self.width_ ∨ y ≥ self.height_ then .error .out_of_range
  else cellGet self.bitmap_ y x

/-- Source: `Bitmap::Width()`. -/
def Width (self : Bitmap Color) : Nat := self.width_

/-- Source: `Bitmap::Height()`. -/
def Height (self : Bitmap Color) : Nat := self.height_

/-- Source: `Bitmap::resize(w, h)`. -/
def resize [Inhabited Color] (self : Bitmap Color) (w h : Nat) : Res (Bitmap Color) :=
  let b := vecResize self.bitmap_ h
  match eachRow h (fun row => .ok (vecResize row w)) b with
  | .ok b' => .ok ⟨b', h, w⟩
  | .error e => .error e

/-- The two nested loops `for (i = ya; i < yb; i++) for (j = xa; j < xb; j++)
bitmap_[i][j] = c` shared by the drawing operations. -/
def fillLoops (b : List (List Color)) (xa ya xb yb : Nat) (c : Color) :
    Res (List (List Color)) :=
  forUp yb (fun i b => forUp xb (fun j b => cellSet b i j c) xa b) ya b

/-- Source: `Bitmap::Fill(xa, ya, xb, yb, c)`. -/
def Fill (self : Bitmap Color) (xa ya xb yb : Nat) (c : Color) : Res (Bitmap Color) :=
  let (xa, xb) := if xa > xb then (xb, xa) else (xa, xb)
  let (ya, yb) := if ya > yb then (yb, ya) else (ya, yb)
  if xa ≥ self.width_ ∨ ya ≥ self.height_ then .ok self
  else
    let xb := if xb > self.width_ then self.width_ else xb
    let yb := if yb > self.height_ then self.height_ else yb
    match fillLoops self.bitmap_ xa ya xb yb c with
    | .ok b' => .ok { self with bitmap_ := b' }
    | .error e => .error e

/-- Source: `Bitmap::Trim(xa, ya, xb, yb)`. -/
def Trim (self : Bitmap Color) (xa ya xb yb : Nat) : Res (Bitmap Color) :=
  let (xa, xb) := if xa > xb then (xb, xa) else (xa, xb)
  let (ya, yb) := if ya > yb then (yb, ya) else (ya, yb)
  if xa ≥ self.width_ ∨ ya ≥ self.height_ then .ok self
  else
    let xb := if xb > self.width_ then self.width_ else xb
    let yb := if yb > self.height_ then self.height_ else yb
    let height := sub32 yb ya
    let width := sub32 xb xa
    match vecErase self.bitmap_ yb self.bitmap_.length with
    | .error e => .error e
    | .ok b1 =>
      match vecErase b1 0 ya with
      | .error e => .error e
      | .ok b2 =>
        match eachRow height (fun row =>
            match vecErase row xb row.length with
            | .error e => .error e
            | .ok row1 => vecErase row1 0 xa) b2 with
        | .ok b3 => .ok ⟨b3, height, width⟩
        | .error e => .error e

/-- Source: `Bitmap(const Bitmap& bmp)`, the copy constructor. -/
def copy (bmp : Bitmap Color) : Bitmap Color := ⟨bmp.bitmap_, bmp.height_, bmp.width_⟩

/-- Source: `Bitmap(Bitmap&& bmp) : height_(bmp.height_), width_(bmp.width_)` with
the body `bitmap_.swap(bmp.bitmap_)`.  The result is the pair of the new object
and of `bmp` as the call leaves it. -/
def moveCtor (bmp : Bitmap Color) : Bitmap Color × Bitmap Color :=
  let self : Bitmap Color := ⟨[], bmp.height_, bmp.width_⟩
  ({ self with bitmap_ := bmp.bitmap_ }, { bmp with bitmap_ := self.bitmap_ })

/-- Source: `operator=(const Bitmap& bmp)`, copy assignment: the new `*this`. -/
def copyAssign (_self bmp : Bitmap Color) : Bitmap Color :=
  ⟨bmp.bitmap_, bmp.height_, bmp.width_⟩

/-- Source: `operator=(Bitmap&& bmp)`: `bitmap_.swap(bmp.bitmap_); height_ =
bmp.height_; width_ = bmp.width_;`.  The result is the pair of `*this` and of
`bmp` as the call leaves them (two distinct objects). -/
def moveAssign (self bmp : Bitmap Color) : Bitmap Color × Bitmap Color :=
  let self1 : Bitmap Color := { self with bitmap_ := bmp.bitmap_ }
  let bmp1 : Bitmap Color := { bmp with bitmap_ := self.bitmap_ }
  ({ self1 with height_ := bmp1.height_, width_ := bmp1.width_ }, bmp1)

/-- Source: `Bitmap::Fill(Color c)`, the fill of the whole raster. -/
def FillColor (self : Bitmap Color) (c : Color) : Res (Bitmap Color) :=
  match fillLoops self.bitmap_ 0 0 self.width_ self.height_ c with
  | .ok b' => .ok { self with bitmap_ := b' }
  | .error e => .error e

/-- Source: `Bitmap::Point(x, y, c, size)`; the default `size = 1` is passed
explicitly. -/
def Point (self : Bitmap Color) (x y : Nat) (c : Color) (size : Nat) : Res (Bitmap Color) :=
  let x := sub32 x ((sub32 size 1) >>> 1)
  let y := sub32 y ((sub32 size 1) >>> 1)
  self.Fill x y (add32 x size) (add32 y size) c

/-- Source: `Bitmap::LineX(x, ya, yb, c, size)`; the default `size = 1` is passed
explicitly.  In the branch `size != 1` the source assigns `x` in both arms of
the `if` and then overwrites it with `x = xa + size`. -/
def LineX (self : Bitmap Color) (x ya yb : Nat) (c : Color) (size : Nat) :
    Res (Bitmap Color) :=
  let (ya, yb) := if ya > yb then (yb, ya) else (ya, yb)
  if size = 1 then
    match forUp yb (fun i b => cellSet b i x c) ya self.bitmap_ with
    | .ok b' => .ok { self with bitmap_ := b' }
    | .error e => .error e
  else
    let (xa, x) :=
      if x < size >>> 1 then (0, add32 x (size >>> 1))
      else (sub32 x (size >>> 1), add32 (sub32 x (size >>> 1)) size)
    let x := (fun _ => add32 xa size) x
    let x := if x > self.width_ then self.width_ else x
    let yb := if yb > self.height_ then self.height_ else yb
    match fillLoops self.bitmap_ xa ya x yb c with
    | .ok b' => .ok { self with bitmap_ := b' }
    | .error e => .error e

/-- Source: `Bitmap::LineY(xa, xb, y, c, size)`; the default `size = 1` is passed
explicitly. -/
def LineY (self : Bitmap Color) (xa xb y : Nat) (c : Color) (size : Nat) :
    Res (Bitmap Color) :=
  let (xa, xb) := if xa > xb then (xb, xa) else (xa, xb)
  let ya := if y < size >>> 1 then 0 else sub32 y (size >>> 1)
  let y := if y < size >>> 1 then add32 y (size >>> 1) else add32 ya size
  let xb := if xb > self.width_ then self.width_ else xb
  let y := if y > self.height_ then self.height_ else y
  match fillLoops self.bitmap_ xa ya xb y c with
  | .ok b' => .ok { self with bitmap_ := b' }
  | .error e => .error e

/-- The inner loop of `Insert` for row `i`, reading row `il` of `c`:
`for (j = x, jl = 0; j < xm; j++, jl++) bitmap_[i][j] = c.bitmap_[il][jl]`.
The state is the pair of `jl` and the storage of `*this`.  `src` is the storage
of `c` when `c` is another object, and `none` when `c` is `*this` itself: then
`c.bitmap_` is the storage that the loop is writing. -/
def insertRow (src : Option (List (List Color))) (x xm i il : Nat) (b : List (List Color)) :
    Res (Nat × List (List Color)) :=
  forUp xm (fun j (st : Nat × List (List Color)) =>
    match cellGet (src.getD st.2) il st.1 with
    | .error e => .error e
    | .ok v =>
      match cellSet st.2 i j v with
      | .error e => .error e
      | .ok b' => .ok (add32 st.1 1, b')) x (0, b)

/-- The outer loop of `Insert`: `for (i = y, il = 0; i < ym; i++, il++)` around
the inner loop.  The state is the pair of `il` and the storage of `*this`. -/
def insertRows (src : Option (List (List Color))) (x xm y ym : Nat)
    (b : List (List Color)) : Res (Nat × List (List Color)) :=
  forUp ym (fun i (st : Nat × List (List Color)) =>
    match insertRow src x xm i st.1 st.2 with
    | .error e => .error e
    | .ok (_, b') => .ok (add32 st.1 1, b')) y (0, b)

/-- The member `c.width_` for the argument of `Insert`. -/
def argWidth (self : Bitmap Color) : InsertArg Color → Nat
  | .itself => self.width_
  | .other c => c.width_

/-- The member `c.height_` for the argument of `Insert`. -/
def argHeight (self : Bitmap Color) : InsertArg Color → Nat
  | .itself => self.height_
  | .other c => c.height_

/-- The storage `c.bitmap_` for the argument of `Insert`, `none` when it is the
storage of `*this`. -/
def argStorage : InsertArg Color → Option (List (List Color))
  | .itself => none
  | .other c => some c.bitmap_

/-- Source: `Bitmap::Insert(x, y, c)`.  The parameter is a reference `Bitmap& c`
and the body has no check for `&c == this`: the argument is `*this` itself or
another object. -/
def Insert (self : Bitmap Color) (x y : Nat) (c : InsertArg Color) : Res (Bitmap Color) :=
  let xm := min self.width_ (add32 (argWidth self c) x)
  let ym := min self.height_ (add32 (argHeight self c) y)
  match insertRows (argStorage c) x xm y ym self.bitmap_ with
  | .ok (_, b') => .ok { self with bitmap_ := b' }
  | .error e => .error e

end Bitmap

/-- The nested vector has `H` rows of `W` elements each. -/
def Grid (b : List (List Color)) (W H : Nat) : Prop :=
  b.length = H ∧ ∀ row ∈ b, row.length = W

/-! ## The host -/

/-- What the codec depends on besides its arguments: the byte order of the
host, the size of a data pointer, and the address at which the `k`-th call of
`Write_` made by `ToBMP` holds its by-value parameter `value`. -/
structure Host where
  bigEndian : Bool
  ptrSize : Nat
  valueAddr : Nat → Nat

/-- The object representation of an `n`-byte integer `v`: its bytes in memory
order, lowest address first. -/
def toMem (h : Host) (n v : Nat) : List Nat :=
  let lsbFirst := (List.range n).map (fun k => v / 256 ^ k % 256)
  if h.bigEndian then lsbFirst.reverse else lsbFirst

/-- The integer whose object representation is `mem`. -/
def fromMem (h : Host) (mem : List Nat) : Nat :=
  let lsbFirst := if h.bigEndian then mem.reverse else mem
  lsbFirst.foldr (fun byte acc => byte + 256 * acc) 0

/-- The three channels are `uint8_t` values. -/
def Color24.valid (c : Color24) : Prop := c.b < 256 ∧ c.g < 256 ∧ c.r < 256

instance (c : Color24) : Decidable c.valid := by
  unfold Color24.valid; infer_instance

/-- Source: `Color24(uint32_t i)`: `b`, `g`, `r` are the first three bytes of the
object representation of `i`. -/
def Color24.ofUInt32 (h : Host) (i : Nat) : Color24 :=
  let t := toMem h 4 i
  ⟨(t[0]?).getD 0, (t[1]?).getD 0, (t[2]?).getD 0⟩

/-- Source: `Color24::operator uint32_t()`: `b`, `g`, `r` are stored into the first
three bytes of `int tr = 0`, and `tr` is returned as `uint32_t`. -/
def Color24.toUInt32 (h : Host) (c : Color24) : Nat :=
  let tr := toMem h 4 0
  let tr := ((tr.set 0 c.b).set 1 c.g).set 2 c.r
  fromMem h tr % U32

/-- Source: `IsBigEndian()`: `int i = 1; return !*((char*)&i);`. -/
def IsBigEndian (h : Host) : Bool :=
  match (toMem h 4 1)[0]? with
  | some byte => byte == 0
  | none => false

/-- Source: `Write_(o, value)` for an `n`-byte `T`: the bytes appended to the stream.
On a big-endian host the loop writes, `n` times, one byte from the address of
the local pointer `ptr` itself (`(const char*)&--ptr`), that is the first byte
of the object representation of `ptr` after each decrement. -/
def Write_ (h : Host) (addr n value : Nat) : List Nat :=
  if IsBigEndian h then
    (List.range n).map (fun i => ((toMem h h.ptrSize (addr + n - (i + 1)))[0]?).getD 0)
  else toMem h n value

/-- Source: `Read_(i, value)` for an `n`-byte `T`: the value stored and the rest of the
stream.  When fewer than `n` bytes are left, `i.read` does not fill the buffer
`t` and the copy takes unspecified bytes. -/
def Read_ (h : Host) (n : Nat) (fin : List Nat) : Res (Nat × List Nat) :=
  if fin.length < n then .error .uninit_read
  else
    let t := fin.take n
    let mem := if IsBigEndian h then t else t.reverse
    .ok (fromMem h mem, fin.drop n)

/-- The value of an `n`-byte two's complement integer with the given bits. -/
def toSigned (n v : Nat) : Int :=
  if v % 256 ^ n < 256 ^ n / 2 then (v % 256 ^ n : Nat) else (v % 256 ^ n : Nat) - (256 ^ n : Nat)

/-- The row padding `((~(3 * w) & 3) + 1) & 3` of `Read` and `ToBMP`, on
`unsigned int`. -/
def rowPad (w : Nat) : Nat := ((not32 (mul32 3 w) &&& 3) + 1) % U32 &&& 3

namespace Bitmap

/-- Source: `Bitmap<Color24>::ToBMP`: the bytes written to `fout` (which the model
takes as opened). -/
def ToBMP (h : Host) (self : Bitmap Color24) : Res (List Nat) :=
  let fout : List Nat := []
  let fout := fout ++ Write_ h (h.valueAddr 0) 2 19778
  let fout := fout ++ Write_ h (h.valueAddr 1) 4 (add32 54 (mul32 (mul32 3 self.height_) self.width_))
  let fout := fout ++ Write_ h (h.valueAddr 2) 4 0
  let fout := fout ++ Write_ h (h.valueAddr 3) 4 54
  let fout := fout ++ Write_ h (h.valueAddr 4) 4 40
  let fout := fout ++ Write_ h (h.valueAddr 5) 4 self.width_
  let fout := fout ++ Write_ h (h.valueAddr 6) 4 self.height_
  let fout := fout ++ Write_ h (h.valueAddr 7) 8 1572865
  let fout := fout ++ Write_ h (h.valueAddr 8) 4 (mul32 (mul32 3 self.height_) self.width_)
  let fout := fout ++ Write_ h (h.valueAddr 9) 4 0
  let fout := fout ++ Write_ h (h.valueAddr 10) 4 0
  let fout := fout ++ Write_ h (h.valueAddr 11) 4 0
  let fout := fout ++ Write_ h (h.valueAddr 12) 4 0
  let tw := rowPad self.width_
  forDown (fun i fout =>
    match forUp self.width_ (fun j fout =>
        match cellGet self.bitmap_ i j with
        | .error e => .error e
        | .ok c => .ok (fout ++ [c.b, c.g, c.r])) 0 fout with
    | .error e => .error e
    | .ok fout => forUp tw (fun _ fout => .ok (fout ++ [0])) 0 fout)
    (sub32 self.height_ 1) fout

/-- Source: `Read_(fin, tc)`: one byte read and dropped. -/
def skipByte (h : Host) (fin : List Nat) : Res (List Nat) :=
  match Read_ h 1 fin with
  | .error e => .error e
  | .ok (_, fin) => .ok fin

/-- Source: `Read_(fin, bitmap_[i][j].b); Read_(fin, bitmap_[i][j].g);
Read_(fin, bitmap_[i][j].r);`. -/
def readPixel (h : Host) (i j : Nat) (st : List Nat × List (List Color24)) :
    Res (List Nat × List (List Color24)) := do
  let (fin, b) := st
  let c ← cellGet b i j
  let (vb, fin) ← Read_ h 1 fin
  let b ← cellSet b i j { c with b := vb }
  let c ← cellGet b i j
  let (vg, fin) ← Read_ h 1 fin
  let b ← cellSet b i j { c with g := vg }
  let c ← cellGet b i j
  let (vr, fin) ← Read_ h 1 fin
  let b ← cellSet b i j { c with r := vr }
  pure (fin, b)

/-- Source: `Bitmap<Color24>::Read`; `file` is the content of the named file, `none`
when it cannot be opened. -/
def Read (h : Host) (file : Option (List Nat)) (self : Bitmap Color24) :
    Res (Bitmap Color24) :=
  match file with
  | none => .ok self
  | some fin => do
    let (_, fin) ← Read_ h 2 fin
    let (_, fin) ← Read_ h 8 fin
    let (bdo, fin) ← Read_ h 4 fin
    let (_, fin) ← Read_ h 4 fin
    let (w, fin) ← Read_ h 4 fin
    let (hgt, fin) ← Read_ h 4 fin
    let (_, fin) ← Read_ h 2 fin
    let (ts, fin) ← Read_ h 2 fin
    if toSigned 2 ts ≠ 24 then .ok self
    else do
      let (ti, fin) ← Read_ h 4 fin
      if toSigned 4 ti ≠ 0 then .ok self
      else do
        let (_, fin) ← Read_ h 8 fin
        let (_, fin) ← Read_ h 8 fin
        let (_, fin) ← Read_ h 4 fin
        let tw := rowPad w
        let fin ← forUp bdo (fun _ fin => skipByte h fin) 54 fin
        let self ← self.resize w hgt
        let (_, b) ← forDown (fun i st => do
            let (fin, b) ← forUp self.width_ (fun j st => readPixel h i j st) 0 st
            let fin ← forUp tw (fun _ fin => skipByte h fin) 0 fin
            pure (fin, b))
          (sub32 self.height_ 1) (fin, self.bitmap_)
        pure { self with bitmap_ := b }

end Bitmap

/-! ## Reference encodings used to state the file layout -/

/-- The `n` bytes of `v`, least significant byte first. -/
def leBytes : Nat → Nat → List Nat
  | 0, _ => []
  | n + 1, v => v % 256 :: leBytes n (v / 256)

/-- The value of a little-endian byte string. -/
def leValue : List Nat → Nat
  | [] => 0
  | byte :: rest => byte + 256 * leValue rest

/-- The value of a big-endian (most significant byte first) byte string. -/
def beValue (bytes : List Nat) : Nat := leValue bytes.reverse

/-- The `len`-byte field at offset `off` of a byte string. -/
def field (bytes : List Nat) (off len : Nat) : List Nat := (bytes.drop off).take len

/-- One serialized pixel row: `b, g, r` of each pixel, then `pad` zero bytes. -/
def rowBytes (row : List Color24) (pad : Nat) : List Nat :=
  (row.map (fun c => [c.b, c.g, c.r])).flatten ++ List.replicate pad 0

/-- The 54 bytes that the thirteen `Write_` calls of `ToBMP` append. -/
def headerBytes (h : Host) (self : Bitmap Color24) : List Nat :=
  Write_ h (h.valueAddr 0) 2 19778
    ++ Write_ h (h.valueAddr 1) 4 (add32 54 (mul32 (mul32 3 self.height_) self.width_))
    ++ Write_ h (h.valueAddr 2) 4 0
    ++ Write_ h (h.valueAddr 3) 4 54
    ++ Write_ h (h.valueAddr 4) 4 40
    ++ Write_ h (h.valueAddr 5) 4 self.width_
    ++ Write_ h (h.valueAddr 6) 4 self.height_
    ++ Write_ h (h.valueAddr 7) 8 1572865
    ++ Write_ h (h.valueAddr 8) 4 (mul32 (mul32 3 self.height_) self.width_)
    ++ Write_ h (h.valueAddr 9) 4 0
    ++ Write_ h (h.valueAddr 10) 4 0
    ++ Write_ h (h.valueAddr 11) 4 0
    ++ Write_ h (h.valueAddr 12) 4 0

/-- The pixel area of a file: the rows from the last to the first, each
serialized with `pad` bytes of padding. -/
def pixelBytes (b : List (List Color24)) (pad : Nat) : List Nat :=
  (b.reverse.map (fun row => rowBytes row pad)).flatten

/-- A little-endian host (pointer size and addresses play no part there). -/
def littleEndianHost : Host := ⟨false, 8, fun _ => 0⟩

/-- A big-endian host with 8-byte pointers. -/
def bigEndianHost (addr : Nat → Nat) : Host := ⟨true, 8, addr⟩

/-- The transpose of a raster: rows and columns exchanged. -/
def Bitmap.transpose (self : Bitmap Color) : Bitmap Color :=
  ⟨(List.range self.width_).map (fun x => self.bitmap_.filterMap (fun row => row[x]?)),
    self.width_, self.height_⟩

/-! ## Sample data -/

/-- A colour to draw with. -/
def ink : Color24 := ⟨9, 9, 9⟩

/-- A 3×3 raster of zero pixels. -/
def blank3x3 : Bitmap Color24 := Bitmap.mk2 3 3

/-- A 2×2 raster of zero pixels. -/
def blank2x2 : Bitmap Color24 := Bitmap.mk2 2 2

/-- A 1×1 raster. -/
def sample1x1 : Bitmap Color24 := ⟨[[⟨1, 2, 3⟩]], 1, 1⟩

/-- A 2×2 raster. -/
def sample2x2 : Bitmap Color24 :=
  ⟨[[⟨1, 2, 3⟩, ⟨4, 5, 6⟩], [⟨7, 8, 9⟩, ⟨10, 11, 12⟩]], 2, 2⟩

/-- A 3×2 raster (rows of 9 bytes, hence 3 bytes of padding). -/
def sample3x2 : Bitmap Color24 :=
  ⟨[[⟨1, 2, 3⟩, ⟨4, 5, 6⟩, ⟨7, 8, 9⟩], [⟨10, 11, 12⟩, ⟨13, 14, 15⟩, ⟨16, 17, 18⟩]], 2, 3⟩

/-- The file that `ToBMP` writes for `sample1x1` on a little-endian host. -/
def file1x1 : List Nat :=
  [66, 77, 57, 0, 0, 0, 0, 0, 0, 0, 54, 0, 0, 0, 40, 0, 0, 0, 1, 0, 0, 0, 1, 0, 0, 0,
   1, 0, 24, 0, 0, 0, 0, 0, 3, 0, 0, 0, 0, 0, 0, 0, 0, 0, 0, 0, 0, 0, 0, 0, 0, 0, 0, 0,
   1, 2, 3, 0]

/-- The file that `ToBMP` writes for `sample2x2` on a little-endian host. -/
def file2x2 : List Nat :=
  [66, 77, 66, 0, 0, 0, 0, 0, 0, 0, 54, 0, 0, 0, 40, 0, 0, 0, 2, 0, 0, 0, 2, 0, 0, 0,
   1, 0, 24, 0, 0, 0, 0, 0, 12, 0, 0, 0, 0, 0, 0, 0, 0, 0, 0, 0, 0, 0, 0, 0, 0, 0, 0, 0,
   7, 8, 9, 10, 11, 12, 0, 0, 1, 2, 3, 4, 5, 6, 0, 0]

/-- A 58-byte file whose multi-byte fields are stored most significant byte
first: width 1, height 1, bits-per-pixel bytes `00 18`, one pixel `9, 8, 7`. -/
def fileMsbFirst : List Nat :=
  [66, 77, 0, 0, 0, 58, 0, 0, 0, 0, 0, 0, 0, 54, 0, 0, 0, 40, 0, 0, 0, 1, 0, 0, 0, 1,
   0, 1, 0, 24, 0, 0, 0, 0, 0, 0, 0, 4, 0, 0, 0, 0, 0, 0, 0, 0, 0, 0, 0, 0, 0, 0, 0, 0,
   9, 8, 7, 0]

/-! # Theorems -/

/-! ## Loop rules -/

theorem forUp_ge {σ : Type} (hi : Nat) (body : Nat → σ → Res σ) (i : Nat) (s : σ)
    (h : hi ≤ i) : forUp hi body i s = .ok s := by
  rw [forUp]; simp [Nat.not_lt.mpr h]

theorem forUp_lt {σ : Type} (hi : Nat) (body : Nat → σ → Res σ) (i : Nat) (s : σ)
    (h : i < hi) : forUp hi body i s =
      (match body i s with
       | .ok s' => forUp hi body (i + 1) s'
       | .error e => .error e) := by
  rw [forUp]; simp [h]

/-- Invariant rule for the counting loop: a property that holds at the start
and is carried by every iteration holds at the end, and the loop returns. -/
theorem forUp_inv {σ : Type} (P : Nat → σ → Prop) (hi : Nat) (body : Nat → σ → Res σ)
    (hstep : ∀ i s, i < hi → P i s → ∃ s', body i s = .ok s' ∧ P (i + 1) s') :
    ∀ (n i : Nat) (s : σ), hi - i = n → i ≤ hi → P i s →
      ∃ s', forUp hi body i s = .ok s' ∧ P hi s' := by
  intro n
  induction n with
  | zero =>
    intro i s hn hle hP
    have : i = hi := by omega
    subst this
    exact ⟨s, forUp_ge _ _ _ _ (Nat.le_refl _), hP⟩
  | succ n ih =>
    intro i s hn hle hP
    have hlt : i < hi := by omega
    obtain ⟨s1, hb, hP1⟩ := hstep i s hlt hP
    obtain ⟨s2, hf, hP2⟩ := ih (i + 1) s1 (by omega) (by omega) hP1
    refine ⟨s2, ?_, hP2⟩
    rw [forUp_lt _ _ _ _ hlt, hb]
    exact hf

theorem forDown_stop {σ : Type} (body : Nat → σ → Res σ) (i : Nat) (s : σ)
    (h : i % U32 = U32 - 1) : forDown body i s = .ok s := by
  rw [forDown]; simp [not32, h]

theorem forDown_step {σ : Type} (body : Nat → σ → Res σ) (i : Nat) (s : σ)
    (h : i % U32 ≠ U32 - 1) : forDown body i s =
      (match body i s with
       | .ok s' => forDown body (sub32 i 1) s'
       | .error e => .error e) := by
  have hlt : i % U32 < U32 := Nat.mod_lt _ (by decide)
  rw [forDown]
  have : not32 i ≠ 0 := by
    simp only [not32]; omega
  simp [this]

theorem forUp_eq_fuel {σ : Type} (hi : Nat) (body : Nat → σ → Res σ) :
    ∀ (n i : Nat) (s : σ), hi - i = n → forUp hi body i s = forUpFuel body n i s := by
  intro n
  induction n with
  | zero =>
    intro i s hn
    rw [forUp_ge _ _ _ _ (by omega)]
    rfl
  | succ n ih =>
    intro i s hn
    rw [forUp_lt _ _ _ _ (by omega), forUpFuel]
    cases body i s with
    | error e => rfl
    | ok s' => exact ih (i + 1) s' (by omega)

theorem forDown_eq_fuel {σ : Type} (body : Nat → σ → Res σ) :
    ∀ (n i : Nat) (s : σ), (i + 1) % U32 = n →
      forDown body i s = forDownFuel body n i s := by
  intro n
  induction n with
  | zero =>
    intro i s hn
    rw [forDown_stop _ _ _ (by simp only [U32] at hn ⊢; omega)]
    rfl
  | succ n ih =>
    intro i s hn
    rw [forDown_step _ _ _ (by simp only [U32] at hn ⊢; omega), forDownFuel]
    cases body i s with
    | error e => rfl
    | ok s' =>
      exact ih (sub32 i 1) s' (by simp only [sub32, U32] at hn ⊢; omega)

/-- Invariant rule for the wrapping descending loop started at `n - 1`
(computed on `unsigned int`): the body runs for `i = n-1, ..., 0`, exactly `n`
times, and the loop returns.  `P k` is the state after `k` iterations. -/
theorem forDown_inv {σ : Type} (P : Nat → σ → Prop) (n : Nat) (hn : n < U32)
    (body : Nat → σ → Res σ)
    (hstep : ∀ k s, k < n → P k s → ∃ s', body (n - 1 - k) s = .ok s' ∧ P (k + 1) s') :
    ∀ (m k : Nat) (s : σ), n - k = m → k ≤ n → P k s →
      ∃ s', forDown body (sub32 (n - k) 1) s = .ok s' ∧ P n s' := by
  intro m
  induction m with
  | zero =>
    intro k s hm hle hP
    have : k = n := by omega
    subst this
    refine ⟨s, ?_, hP⟩
    apply forDown_stop
    simp only [sub32, U32]
    omega
  | succ m ih =>
    intro k s hm hle hP
    have hlt : k < n := by omega
    obtain ⟨s1, hb, hP1⟩ := hstep k s hlt hP
    obtain ⟨s2, hf, hP2⟩ := ih (k + 1) s1 (by omega) (by omega) hP1
    refine ⟨s2, ?_, hP2⟩
    have hidx : sub32 (n - k) 1 = n - 1 - k := by
      simp only [sub32, U32] at hn ⊢; omega
    have hnext : sub32 (n - 1 - k) 1 = sub32 (n - (k + 1)) 1 := by
      have h1 : n - 1 - k = n - (k + 1) := by omega
      rw [h1]
    rw [hidx, forDown_step, hb, hnext]
    · exact hf
    · simp only [U32] at hn ⊢; omega

/-! ## The nested vector as a grid -/

theorem vecGet_of_lt {α : Type} (v : List α) (i : Nat) (h : i < v.length) :
    vecGet v i = .ok (v.get ⟨i, h⟩) := by
  simp [vecGet, List.getElem?_eq_getElem h]

theorem vecGet_of_ge {α : Type} (v : List α) (i : Nat) (h : v.length ≤ i) :
    vecGet v i = .error .bad_index := by
  simp [vecGet, List.getElem?_eq_none h]

theorem Grid.row_length {b : List (List Color)} {W H : Nat} (hg : Grid b W H)
    (y : Nat) (hy : y < b.length) : (b.get ⟨y, hy⟩).length = W :=
  hg.2 _ (List.get_mem b y hy)

theorem cellGet_of_grid {b : List (List Color)} {W H : Nat} (hg : Grid b W H)
    {y x : Nat} (hy : y < H) (hx : x < W) :
    ∃ c, cellGet b y x = .ok c := by
  have hy' : y < b.length := by rw [hg.1]; exact hy
  have hx' : x < (b.get ⟨y, hy'⟩).length := by rw [hg.row_length y hy']; exact hx
  exact ⟨(b.get ⟨y, hy'⟩).get ⟨x, hx'⟩, by
    simp only [cellGet, vecGet_of_lt b y hy', vecGet_of_lt _ x hx']⟩

theorem cellSet_spec {b : List (List Color)} {W H : Nat} (hg : Grid b W H)
    {i j : Nat} (hi : i < H) (hj : j < W) (c : Color) :
    ∃ b', cellSet b i j c = .ok b' ∧ Grid b' W H ∧
      ∀ y x, cellGet b' y x = if y = i ∧ x = j then .ok c else cellGet b y x := by
  have hi' : i < b.length := by rw [hg.1]; exact hi
  have hrow : (b.get ⟨i, hi'⟩).length = W := hg.row_length i hi'
  have hj' : j < (b.get ⟨i, hi'⟩).length := by rw [hrow]; exact hj
  refine ⟨b.set i ((b.get ⟨i, hi'⟩).set j c), ?_, ?_, ?_⟩
  · simp only [cellSet, vecGet_of_lt b i hi', vecSet, hj', hi', if_true]
  · refine ⟨by rw [List.length_set]; exact hg.1, ?_⟩
    intro row hrow'
    rcases List.mem_or_eq_of_mem_set hrow' with h | h
    · exact hg.2 row h
    · rw [h, List.length_set]; exact hrow
  · intro y x
    by_cases hy : y = i
    · subst hy
      have e1 : vecGet (b.set y ((b.get ⟨y, hi'⟩).set j c)) y
          = .ok ((b.get ⟨y, hi'⟩).set j c) := by
        simp [vecGet, hi']
      by_cases hx : x = j
      · subst hx
        simp only [cellGet, e1, true_and, if_true]
        rw [vecGet, List.getElem?_set_self hj']
      · have hx' : ¬ j = x := fun h => hx h.symm
        simp only [cellGet, e1, vecGet_of_lt b y hi', hx, and_false, if_false]
        simp [vecGet, List.getElem?_set_ne hx']
    · have hy' : ¬ i = y := fun h => hy h.symm
      simp only [cellGet, hy, false_and, if_false]
      simp [vecGet, List.getElem?_set_ne hy']

/-- What the two nested fill loops do on a grid: they return, keep the shape,
and set exactly the cells of `[xa, xb) × [ya, yb)`. -/
theorem fillLoops_spec {b : List (List Color)} {W H : Nat} (hg : Grid b W H)
    (xa ya xb yb : Nat) (c : Color) (hx : xb ≤ W) (hy : yb ≤ H) :
    ∃ b', Bitmap.fillLoops b xa ya xb yb c = .ok b' ∧ Grid b' W H ∧
      ∀ y x, cellGet b' y x =
        if ya ≤ y ∧ y < yb ∧ xa ≤ x ∧ x < xb then .ok c else cellGet b y x := by
  unfold Bitmap.fillLoops
  by_cases hyy : ya ≤ yb
  · -- the rows ya .. yb-1
    have houter := forUp_inv
      (fun i b' => ya ≤ i ∧ Grid b' W H ∧ ∀ y x, cellGet b' y x =
        if ya ≤ y ∧ y < i ∧ xa ≤ x ∧ x < xb then .ok c else cellGet b y x)
      yb (fun i b => forUp xb (fun j b => cellSet b i j c) xa b)
      (by
        intro i s hi ⟨hyi, hgs, hs⟩
        by_cases hxx : xa ≤ xb
        · have hinner := forUp_inv
            (fun j b' => xa ≤ j ∧ Grid b' W H ∧ ∀ y x, cellGet b' y x =
              if y = i ∧ xa ≤ x ∧ x < j then .ok c else cellGet s y x)
            xb (fun j b => cellSet b i j c)
            (by
              intro j t hj ⟨hxj, hgt, ht⟩
              obtain ⟨t', e, hgt', ht'⟩ := cellSet_spec hgt
                (show i < H by omega) (show j < W by omega) c
              refine ⟨t', e, by omega, hgt', ?_⟩
              intro y x
              rw [ht' y x, ht y x]
              by_cases h1 : y = i <;> by_cases h2 : x = j <;> simp [h1, h2] <;>
                first
                  | omega
                  | (split_ifs <;> first | rfl | omega))
            (xb - xa) xa s rfl hxx ⟨Nat.le_refl _, hgs, by intro y x; rw [if_neg (by omega)]⟩
          obtain ⟨s', e, _, hgs', hs'⟩ := hinner
          refine ⟨s', e, by omega, hgs', ?_⟩
          intro y x
          rw [hs' y x, hs y x]
          by_cases h1 : y = i <;> simp [h1] <;>
            (split_ifs <;> first | rfl | omega)
        · refine ⟨s, forUp_ge _ _ _ _ (by omega), by omega, hgs, ?_⟩
          intro y x
          rw [hs y x]
          split_ifs <;> first | rfl | omega)
      (yb - ya) ya b rfl hyy ⟨Nat.le_refl _, hg, by intro y x; rw [if_neg (by omega)]⟩
    obtain ⟨b', e, _, hgb, hb⟩ := houter
    exact ⟨b', e, hgb, hb⟩
  · refine ⟨b, forUp_ge _ _ _ _ (by omega), hg, ?_⟩
    intro y x
    split_ifs <;> first | rfl | omega

theorem Bitmap.WF.grid {self : Bitmap Color} (h : self.WF) :
    Grid self.bitmap_ self.width_ self.height_ := ⟨h.1, h.2.1⟩

theorem Bitmap.at_inside (self : Bitmap Color) {x y : Nat}
    (hx : x < self.width_) (hy : y < self.height_) :
    self.at x y = cellGet self.bitmap_ y x := by
  unfold Bitmap.at
  rw [if_neg (by omega)]

/-- Fill on a well-formed raster, with the rectangle already normalised:
`xa ≤ xb`, `ya ≤ yb`. -/
theorem Fill_sorted (self : Bitmap Color) (hwf : self.WF) (xa ya xb yb : Nat) (c : Color)
    (hx : xa ≤ xb) (hy : ya ≤ yb) :
    ∃ r', self.Fill xa ya xb yb c = .ok r' ∧
      r'.width_ = self.width_ ∧ r'.height_ = self.height_ ∧ r'.WF ∧
      ∀ x y, x < self.width_ → y < self.height_ →
        r'.at x y = if xa ≤ x ∧ x < xb ∧ ya ≤ y ∧ y < yb then .ok c else self.at x y := by
  have h1 : ¬ xa > xb := by omega
  have h2 : ¬ ya > yb := by omega
  by_cases ho : xa ≥ self.width_ ∨ ya ≥ self.height_
  · refine ⟨self, ?_, rfl, rfl, hwf, ?_⟩
    · simp only [Bitmap.Fill, h1, h2, if_false, ho, if_true]
    · intro x y hxw hyh
      rw [if_neg (by omega)]
  · obtain ⟨b', e, hg, hb⟩ := fillLoops_spec hwf.grid xa ya
      (if xb > self.width_ then self.width_ else xb)
      (if yb > self.height_ then self.height_ else yb) c
      (by split_ifs <;> omega) (by split_ifs <;> omega)
    refine ⟨{ self with bitmap_ := b' }, ?_, rfl, rfl, ⟨hg.1, hg.2, hwf.2.2⟩, ?_⟩
    · simp only [Bitmap.Fill, h1, h2, if_false, ho]
      rw [e]
    · intro x y hxw hyh
      rw [Bitmap.at_inside _ (by exact hxw) (by exact hyh), Bitmap.at_inside _ hxw hyh, hb y x]
      by_cases hc : xa ≤ x ∧ x < xb ∧ ya ≤ y ∧ y < yb
      · rw [if_pos hc, if_pos]
        refine ⟨hc.2.2.1, ?_, hc.1, ?_⟩
        · split_ifs <;> omega
        · split_ifs <;> omega
      · rw [if_neg hc, if_neg]
        intro ⟨a1, a2, a3, a4⟩
        apply hc
        refine ⟨a3, ?_, a1, ?_⟩
        · split_ifs at a4 <;> omega
        · split_ifs at a2 <;> omega

theorem Fill_swap_x (self : Bitmap Color) (xa ya xb yb : Nat) (c : Color) (h : xa > xb) :
    self.Fill xa ya xb yb c = self.Fill xb ya xa yb c := by
  have h' : ¬ xb > xa := by omega
  simp only [Bitmap.Fill, h, h', if_true, if_false]

theorem Fill_swap_y (self : Bitmap Color) (xa ya xb yb : Nat) (c : Color) (h : ya > yb) :
    self.Fill xa ya xb yb c = self.Fill xa yb xb ya c := by
  have h' : ¬ yb > ya := by omega
  simp only [Bitmap.Fill, h, h', if_true, if_false]

/-- C7: on a well-formed raster, `at(x, y)` throws `out_of_range` exactly when
`x >= width` or `y >= height`; otherwise it returns the element stored at column
`x` of row `y`, the cell that the unchecked `bmp[x][y]` addresses too. -/
theorem at_checked (self : Bitmap Color) (hwf : self.WF) (x y : Nat) :
    (self.at x y = .error .out_of_range ↔ (x ≥ self.width_ ∨ y ≥ self.height_)) ∧
    (x < self.width_ → y < self.height_ →
      ∃ row c, self.bitmap_[y]? = some row ∧ row[x]? = some c ∧
        self.at x y = .ok c ∧ (self.index x).index y = .ok c) := by
  constructor
  · constructor
    · intro h
      by_contra hn
      obtain ⟨c, hc⟩ := cellGet_of_grid hwf.grid (show y < self.height_ by omega)
        (show x < self.width_ by omega)
      rw [Bitmap.at_inside _ (by omega) (by omega), hc] at h
      cases h
    · intro h
      unfold Bitmap.at
      rw [if_pos h]
  · intro hx hy
    have hy' : y < self.bitmap_.length := by rw [hwf.1]; exact hy
    have hx' : x < (self.bitmap_.get ⟨y, hy'⟩).length := by
      rw [hwf.grid.row_length y hy']; exact hx
    refine ⟨self.bitmap_.get ⟨y, hy'⟩, (self.bitmap_.get ⟨y, hy'⟩).get ⟨x, hx'⟩, ?_, ?_, ?_, ?_⟩
    · exact List.getElem?_eq_getElem hy'
    · exact List.getElem?_eq_getElem hx'
    · rw [Bitmap.at_inside _ hx hy]
      simp only [cellGet, vecGet_of_lt _ y hy', vecGet_of_lt _ x hx']
    · simp only [Bitmap.index, Bitmap.Row.index, cellGet, vecGet_of_lt _ y hy',
        vecGet_of_lt _ x hx']

/-- C8: `Fill(xa, ya, xb, yb, c)` on a well-formed raster returns without an
out-of-range access, keeps width and height, sets every pixel of the half-open
rectangle between the two corners (in either order) to `c` and keeps every
other pixel. -/
theorem Fill_rect (self : Bitmap Color) (hwf : self.WF) (xa ya xb yb : Nat) (c : Color) :
    ∃ r', self.Fill xa ya xb yb c = .ok r' ∧
      r'.width_ = self.width_ ∧ r'.height_ = self.height_ ∧ r'.WF ∧
      ∀ x y, x < self.width_ → y < self.height_ →
        r'.at x y =
          if min xa xb ≤ x ∧ x < max xa xb ∧ min ya yb ≤ y ∧ y < max ya yb then .ok c
          else self.at x y := by
  have key := Fill_sorted self hwf (min xa xb) (min ya yb) (max xa xb) (max ya yb) c
    (by omega) (by omega)
  have e : self.Fill xa ya xb yb c
      = self.Fill (min xa xb) (min ya yb) (max xa xb) (max ya yb) c := by
    by_cases h1 : xa > xb <;> by_cases h2 : ya > yb
    · rw [Fill_swap_x _ _ _ _ _ _ h1, Fill_swap_y _ _ _ _ _ _ h2,
        Nat.min_eq_right (by omega), Nat.max_eq_left (by omega),
        Nat.min_eq_right (by omega), Nat.max_eq_left (by omega)]
    · rw [Fill_swap_x _ _ _ _ _ _ h1,
        Nat.min_eq_right (by omega), Nat.max_eq_left (by omega),
        Nat.min_eq_left (by omega), Nat.max_eq_right (by omega)]
    · rw [Fill_swap_y _ _ _ _ _ _ h2,
        Nat.min_eq_left (by omega), Nat.max_eq_right (by omega),
        Nat.min_eq_right (by omega), Nat.max_eq_left (by omega)]
    · rw [Nat.min_eq_left (by omega), Nat.max_eq_right (by omega),
        Nat.min_eq_left (by omega), Nat.max_eq_right (by omega)]
  rw [e]
  exact key

/-! ## Row-wise loops, `resize` and `Trim` -/

/-- A row loop over all rows whose operation succeeds on every row returns
the rows mapped. -/
theorem eachRow_spec (op : List Color → Res (List Color)) (g : List Color → List Color)
    (b : List (List Color)) (hop : ∀ row ∈ b, op row = .ok (g row)) :
    eachRow b.length op b = .ok (b.map g) := by
  unfold eachRow
  obtain ⟨b', e, hlen, hb'⟩ := forUp_inv
    (fun i b' => b'.length = b.length ∧
      ∀ k, b'[k]? = if k < i then (b[k]?).map g else b[k]?)
    b.length
    (fun i b =>
      match vecGet b i with
      | .error e => .error e
      | .ok row =>
        match op row with
        | .error e => .error e
        | .ok row' => vecSet b i row')
    (by
      intro i s hi ⟨hlen, hs⟩
      have hsi : s[i]? = some (b.get ⟨i, hi⟩) := by
        rw [hs i, if_neg (by omega)]
        exact List.getElem?_eq_getElem hi
      have hopi := hop _ (List.get_mem b i hi)
      have hi' : i < s.length := by omega
      refine ⟨s.set i (g (b.get ⟨i, hi⟩)), ?_, ?_, ?_⟩
      · simp only [vecGet, hsi, hopi, vecSet, hi', if_true]
      · rw [List.length_set]; exact hlen
      · intro k
        by_cases hk : k = i
        · subst hk
          rw [List.getElem?_set_self hi', if_pos (by omega), List.getElem?_eq_getElem hi]
          rfl
        · have hk' : ¬ i = k := fun h => hk h.symm
          rw [List.getElem?_set_ne hk', hs k]
          by_cases h1 : k < i
          · rw [if_pos h1, if_pos (by omega)]
          · rw [if_neg h1, if_neg (by omega)])
    (b.length - 0) 0 b rfl (Nat.zero_le _)
    ⟨rfl, by intro k; rw [if_neg (by omega)]⟩
  rw [e]
  congr 1
  apply List.ext_getElem?
  intro k
  rw [hb' k, List.getElem?_map]
  by_cases hk : k < b.length
  · rw [if_pos hk]
  · rw [if_neg hk, List.getElem?_eq_none (by omega)]
    rfl

theorem length_vecResize {α : Type} [Inhabited α] (v : List α) (n : Nat) :
    (vecResize v n).length = n := by
  simp only [vecResize, List.length_append, List.length_take, List.length_replicate]
  omega

theorem vecResize_getElem {α : Type} [Inhabited α] (v : List α) (n k : Nat) :
    (vecResize v n)[k]? = if k < n then some ((v[k]?).getD default) else none := by
  unfold vecResize
  by_cases hk : k < n
  · rw [if_pos hk]
    by_cases hv : k < v.length
    · rw [List.getElem?_append_left (by rw [List.length_take]; omega),
        List.getElem?_take_of_lt hk, List.getElem?_eq_getElem hv]
      rfl
    · rw [List.getElem?_append_right (by rw [List.length_take]; omega),
        List.getElem?_replicate, if_pos (by rw [List.length_take]; omega),
        List.getElem?_eq_none (by omega)]
      rfl
  · rw [if_neg hk]
    apply List.getElem?_eq_none
    simp only [List.length_append, List.length_take, List.length_replicate]
    omega

/-- The `resize` operation never faults; its storage is the old one, resized
to `h` rows, with every row resized to `w` elements. -/
theorem resize_eq [Inhabited Color] (self : Bitmap Color) (w h : Nat) :
    self.resize w h =
      .ok ⟨(vecResize self.bitmap_ h).map (fun row => vecResize row w), h, w⟩ := by
  have e := eachRow_spec (fun row => .ok (vecResize row w)) (fun row => vecResize row w)
    (vecResize self.bitmap_ h) (fun _ _ => rfl)
  rw [length_vecResize] at e
  simp only [Bitmap.resize, e]

theorem vecResize_self {α : Type} [Inhabited α] (v : List α) (n : Nat) (h : v.length = n) :
    vecResize v n = v := by
  unfold vecResize
  rw [List.take_of_length_le (by omega), show n - v.length = 0 by omega]
  simp

theorem vecResize_vecResize {α : Type} [Inhabited α] (v : List α) (n m : Nat)
    (h : v.length = n) (hm : n ≤ m) : vecResize (vecResize v m) n = v := by
  apply List.ext_getElem?
  intro k
  rw [vecResize_getElem, vecResize_getElem]
  by_cases hk : k < n
  · rw [if_pos hk, if_pos (by omega), List.getElem?_eq_getElem (by omega)]
    rfl
  · rw [if_neg hk, List.getElem?_eq_none (by omega)]

theorem cellGet_resized [Inhabited Color] (b : List (List Color)) (w h : Nat)
    {x y : Nat} (hx : x < w) (hy : y < h) :
    cellGet ((vecResize b h).map (fun row => vecResize row w)) y x
      = .ok ((((b[y]?).getD default)[x]?).getD default) := by
  simp only [cellGet, vecGet, List.getElem?_map, vecResize_getElem, if_pos hx, if_pos hy,
    Option.map_some']

/-- C10: `resize(w, h)` on a well-formed raster returns a `w × h` raster whose
pixel at `(x, y)` is the old one where `x < W` and `y < H` and the zero
(default) pixel elsewhere; growing and then resizing back to `W × H` gives the
original raster. -/
theorem resize_spec [Inhabited Color] (self : Bitmap Color) (hwf : self.WF) (w h : Nat) :
    ∃ r', self.resize w h = .ok r' ∧ r'.width_ = w ∧ r'.height_ = h ∧
      (∀ x y, x < w → y < h →
        r'.at x y = if x < self.width_ ∧ y < self.height_ then self.at x y
                    else .ok default) ∧
      (self.width_ ≤ w → self.height_ ≤ h →
        r'.resize self.width_ self.height_ = .ok self) := by
  refine ⟨_, resize_eq self w h, rfl, rfl, ?_, ?_⟩
  · intro x y hx hy
    rw [Bitmap.at_inside _ (by exact hx) (by exact hy)]
    show cellGet ((vecResize self.bitmap_ h).map (fun row => vecResize row w)) y x = _
    rw [cellGet_resized _ _ _ hx hy]
    by_cases hin : x < self.width_ ∧ y < self.height_
    · rw [if_pos hin, Bitmap.at_inside _ hin.1 hin.2]
      have hy' : y < self.bitmap_.length := by rw [hwf.1]; exact hin.2
      have hx' : x < (self.bitmap_.get ⟨y, hy'⟩).length := by
        rw [hwf.grid.row_length y hy']; exact hin.1
      simp only [cellGet, vecGet_of_lt _ y hy', vecGet_of_lt _ x hx']
      rw [List.getElem?_eq_getElem hy']
      show Except.ok (((self.bitmap_.get ⟨y, hy'⟩)[x]?).getD default) = _
      rw [List.getElem?_eq_getElem hx']
      rfl
    · rw [if_neg hin]
      congr 1
      by_cases hy' : y < self.bitmap_.length
      · have hrow := hwf.grid.row_length y hy'
        rw [List.getElem?_eq_getElem hy']
        show (((self.bitmap_.get ⟨y, hy'⟩)[x]?).getD default) = _
        rw [List.getElem?_eq_none (by rw [hrow]; have := hwf.1; omega)]
        rfl
      · rw [List.getElem?_eq_none (show self.bitmap_.length ≤ y by omega)]
        rfl
  · intro hw hh
    rw [resize_eq]
    have hb : (vecResize ((vecResize self.bitmap_ h).map (fun row => vecResize row w))
        self.height_).map (fun row => vecResize row self.width_) = self.bitmap_ := by
      apply List.ext_getElem?
      intro k
      rw [List.getElem?_map, vecResize_getElem, List.getElem?_map, vecResize_getElem]
      by_cases hk : k < self.height_
      · have hk' : k < self.bitmap_.length := by rw [hwf.1]; exact hk
        have hrow := hwf.grid.row_length k hk'
        rw [if_pos hk, if_pos (by omega), List.getElem?_eq_getElem hk']
        show some (vecResize (vecResize (self.bitmap_.get ⟨k, hk'⟩) w) self.width_) = _
        rw [vecResize_vecResize _ _ _ hrow hw]
        rfl
      · rw [if_neg hk, List.getElem?_eq_none (by rw [hwf.1]; omega)]
        rfl
    rw [hb]

theorem sub32_of_le {a b : Nat} (hb : b ≤ a) (ha : a < U32) : sub32 a b = a - b := by
  simp only [sub32, U32] at ha ⊢
  omega

theorem vecErase_tail {α : Type} (v : List α) (n : Nat) (h : n ≤ v.length) :
    vecErase v n v.length = .ok (v.take n) := by
  simp [vecErase, h]

theorem vecErase_head {α : Type} (v : List α) (n : Nat) (h : n ≤ v.length) :
    vecErase v 0 n = .ok (v.drop n) := by
  simp [vecErase, h]

/-- Trim with the rectangle already normalised and its origin inside. -/
theorem Trim_sorted (self : Bitmap Color) (hwf : self.WF) (xa ya xb yb : Nat)
    (hx : xa ≤ xb) (hy : ya ≤ yb) (hxa : xa < self.width_) (hya : ya < self.height_) :
    self.Trim xa ya xb yb =
      .ok ⟨((self.bitmap_.take (min yb self.height_)).drop ya).map
            (fun row => (row.take (min xb self.width_)).drop xa),
          min yb self.height_ - ya, min xb self.width_ - xa⟩ := by
  have h1 : ¬ xa > xb := by omega
  have h2 : ¬ ya > yb := by omega
  have ho : ¬ (xa ≥ self.width_ ∨ ya ≥ self.height_) := by omega
  have ex : (if xb > self.width_ then self.width_ else xb) = min xb self.width_ := by
    split_ifs <;> omega
  have ey : (if yb > self.height_ then self.height_ else yb) = min yb self.height_ := by
    split_ifs <;> omega
  have hlen := hwf.1
  have hW := hwf.2.2.1
  have hH := hwf.2.2.2
  have e1 := vecErase_tail self.bitmap_ (min yb self.height_) (by omega)
  have e2 := vecErase_head (self.bitmap_.take (min yb self.height_)) ya
    (by rw [List.length_take]; omega)
  have hrows : ∀ row ∈ (self.bitmap_.take (min yb self.height_)).drop ya,
      (match vecErase row (min xb self.width_) row.length with
        | Except.error e => Except.error e
        | Except.ok row1 => vecErase row1 0 xa)
      = Except.ok ((row.take (min xb self.width_)).drop xa) := by
    intro row hrow
    have hmem : row ∈ self.bitmap_ := List.mem_of_mem_take (List.mem_of_mem_drop hrow)
    have hl : row.length = self.width_ := hwf.2.1 row hmem
    rw [vecErase_tail row _ (by omega)]
    exact vecErase_head _ _ (by rw [List.length_take]; omega)
  have e3 := eachRow_spec _ (fun row => (row.take (min xb self.width_)).drop xa) _ hrows
  have hsy : sub32 (min yb self.height_) ya = min yb self.height_ - ya :=
    sub32_of_le (by omega) (by omega)
  have hsx : sub32 (min xb self.width_) xa = min xb self.width_ - xa :=
    sub32_of_le (by omega) (by omega)
  have hl2 : ((self.bitmap_.take (min yb self.height_)).drop ya).length
      = min yb self.height_ - ya := by
    rw [List.length_drop, List.length_take]
    omega
  rw [hl2] at e3
  simp only [Bitmap.Trim, h1, h2, if_false, ho, ex, ey, e1, e2, hsy, hsx, e3]

theorem Trim_swap_x (self : Bitmap Color) (xa ya xb yb : Nat) (h : xa > xb) :
    self.Trim xa ya xb yb = self.Trim xb ya xa yb := by
  have h' : ¬ xb > xa := by omega
  simp only [Bitmap.Trim, h, h', if_true, if_false]

theorem Trim_swap_y (self : Bitmap Color) (xa ya xb yb : Nat) (h : ya > yb) :
    self.Trim xa ya xb yb = self.Trim xa yb xb ya := by
  have h' : ¬ yb > ya := by omega
  simp only [Bitmap.Trim, h, h', if_true, if_false]

theorem Trim_normalise (self : Bitmap Color) (xa ya xb yb : Nat) :
    self.Trim xa ya xb yb = self.Trim (min xa xb) (min ya yb) (max xa xb) (max ya yb) := by
  by_cases h1 : xa > xb <;> by_cases h2 : ya > yb
  · rw [Trim_swap_x _ _ _ _ _ h1, Trim_swap_y _ _ _ _ _ h2,
      Nat.min_eq_right (by omega), Nat.max_eq_left (by omega),
      Nat.min_eq_right (by omega), Nat.max_eq_left (by omega)]
  · rw [Trim_swap_x _ _ _ _ _ h1,
      Nat.min_eq_right (by omega), Nat.max_eq_left (by omega),
      Nat.min_eq_left (by omega), Nat.max_eq_right (by omega)]
  · rw [Trim_swap_y _ _ _ _ _ h2,
      Nat.min_eq_left (by omega), Nat.max_eq_right (by omega),
      Nat.min_eq_right (by omega), Nat.max_eq_left (by omega)]
  · rw [Nat.min_eq_left (by omega), Nat.max_eq_right (by omega),
      Nat.min_eq_left (by omega), Nat.max_eq_right (by omega)]

theorem Trim_outside (self : Bitmap Color) (xa ya xb yb : Nat) (hx : xa ≤ xb) (hy : ya ≤ yb)
    (ho : xa ≥ self.width_ ∨ ya ≥ self.height_) : self.Trim xa ya xb yb = .ok self := by
  have h1 : ¬ xa > xb := by omega
  have h2 : ¬ ya > yb := by omega
  simp only [Bitmap.Trim, h1, h2, if_false, ho, if_true]

theorem cellGet_trimmed (b : List (List Color)) (x0 y0 x1 y1 i j : Nat)
    (hi : x0 + i < x1) (hj : y0 + j < y1) :
    cellGet (((b.take y1).drop y0).map (fun row => (row.take x1).drop x0)) j i
      = cellGet b (j + y0) (i + x0) := by
  simp only [cellGet, vecGet, List.getElem?_map, List.getElem?_drop,
    List.getElem?_take_of_lt hj, Nat.add_comm j y0, Nat.add_comm i x0]
  cases b[y0 + j]? with
  | none => rfl
  | some row =>
    simp only [Option.map_some', List.getElem?_drop, List.getElem?_take_of_lt hi]

theorem Trim_spec_sorted (self : Bitmap Color) (hwf : self.WF) (x0 y0 xm ym : Nat)
    (hx : x0 ≤ xm) (hy : y0 ≤ ym) :
    ((x0 ≥ self.width_ ∨ y0 ≥ self.height_) → self.Trim x0 y0 xm ym = .ok self) ∧
    (¬ (x0 ≥ self.width_ ∨ y0 ≥ self.height_) →
      ∃ r', self.Trim x0 y0 xm ym = .ok r' ∧
        r'.width_ = min xm self.width_ - x0 ∧
        r'.height_ = min ym self.height_ - y0 ∧
        r'.WF ∧
        ∀ i j, i < min xm self.width_ - x0 → j < min ym self.height_ - y0 →
          r'.at i j = self.at (i + x0) (j + y0)) := by
  refine ⟨Trim_outside self x0 y0 xm ym hx hy, ?_⟩
  intro ho
  have hlen := hwf.1
  have hW := hwf.2.2.1
  have hH := hwf.2.2.2
  refine ⟨_, Trim_sorted self hwf x0 y0 xm ym hx hy (by omega) (by omega), rfl, rfl, ?_, ?_⟩
  · refine ⟨?_, ?_, ?_, ?_⟩
    · show (((self.bitmap_.take (min ym self.height_)).drop y0).map _).length
        = min ym self.height_ - y0
      rw [List.length_map, List.length_drop, List.length_take]
      omega
    · intro row' hrow'
      obtain ⟨row, hrow, rfl⟩ := List.mem_map.mp hrow'
      have hmem : row ∈ self.bitmap_ := List.mem_of_mem_take (List.mem_of_mem_drop hrow)
      have hl : row.length = self.width_ := hwf.2.1 row hmem
      show ((row.take (min xm self.width_)).drop x0).length = min xm self.width_ - x0
      rw [List.length_drop, List.length_take]
      omega
    · show min xm self.width_ - x0 < U32
      omega
    · show min ym self.height_ - y0 < U32
      omega
  · intro i j hi hj
    rw [Bitmap.at_inside _ (by exact hi) (by exact hj),
      Bitmap.at_inside _ (by omega) (by omega)]
    exact cellGet_trimmed self.bitmap_ x0 y0 _ _ i j (by omega) (by omega)

/-- C9: `Trim(xa, ya, xb, yb)` on a well-formed raster.  With
`x0 = min xa xb`, `y0 = min ya yb`, `x1 = min (max xa xb) W`,
`y1 = min (max ya yb) H`: when `x0 >= W` or `y0 >= H` the raster is returned
unchanged; otherwise the result has width `x1 - x0`, height `y1 - y0`, and its
pixel `(i, j)` is the original pixel `(i + x0, j + y0)`. -/
theorem Trim_spec (self : Bitmap Color) (hwf : self.WF) (xa ya xb yb : Nat) :
    ((min xa xb ≥ self.width_ ∨ min ya yb ≥ self.height_) →
      self.Trim xa ya xb yb = .ok self) ∧
    (¬ (min xa xb ≥ self.width_ ∨ min ya yb ≥ self.height_) →
      ∃ r', self.Trim xa ya xb yb = .ok r' ∧
        r'.width_ = min (max xa xb) self.width_ - min xa xb ∧
        r'.height_ = min (max ya yb) self.height_ - min ya yb ∧
        r'.WF ∧
        ∀ i j, i < min (max xa xb) self.width_ - min xa xb →
          j < min (max ya yb) self.height_ - min ya yb →
          r'.at i j = self.at (i + min xa xb) (j + min ya yb)) := by
  rw [Trim_normalise]
  exact Trim_spec_sorted self hwf (min xa xb) (min ya yb) (max xa xb) (max ya yb)
    (by omega) (by omega)

/-! ## The writer -/

theorem padLoop_spec (tw : Nat) (fout : List Nat) :
    forUp tw (fun _ fout => .ok (fout ++ [0])) 0 fout
      = .ok (fout ++ List.replicate tw 0) := by
  obtain ⟨s', e, hs'⟩ := forUp_inv
    (fun j fout' => fout' = fout ++ List.replicate j 0) tw
    (fun _ fout => .ok (fout ++ [0]))
    (by
      intro j s _ hs
      refine ⟨s ++ [0], rfl, ?_⟩
      beta_reduce
      rw [hs, List.replicate_succ', List.append_assoc])
    (tw - 0) 0 fout rfl (Nat.zero_le _) (by simp)
  rw [e, hs']

theorem rowLoop_spec (b : List (List Color24)) (i : Nat) (row : List Color24)
    (hrow : b[i]? = some row) (fout : List Nat) :
    forUp row.length (fun j fout =>
        match cellGet b i j with
        | .error e => .error e
        | .ok c => .ok (fout ++ [c.b, c.g, c.r])) 0 fout
      = .ok (fout ++ (row.map (fun c => [c.b, c.g, c.r])).flatten) := by
  obtain ⟨s', e, hs'⟩ := forUp_inv
    (fun j fout' => fout' = fout ++ ((row.take j).map (fun c => [c.b, c.g, c.r])).flatten)
    row.length
    (fun j fout =>
      match cellGet b i j with
      | .error e => .error e
      | .ok c => .ok (fout ++ [c.b, c.g, c.r]))
    (by
      intro j s hj hs
      have hc : cellGet b i j = .ok (row.get ⟨j, hj⟩) := by
        simp only [cellGet, vecGet, hrow, List.getElem?_eq_getElem hj]
        rfl
      refine ⟨s ++ [(row.get ⟨j, hj⟩).b, (row.get ⟨j, hj⟩).g, (row.get ⟨j, hj⟩).r], ?_, ?_⟩
      · simp only [hc]
      · beta_reduce
        rw [hs, List.take_succ, List.getElem?_eq_getElem hj, List.append_assoc]
        congr 1
        rw [List.map_append, List.flatten_append]
        rfl)
    (row.length - 0) 0 fout rfl (Nat.zero_le _) (by simp)
  rw [e, hs', List.take_length]

/-- On a well-formed raster `ToBMP` returns: the header bytes followed by the
rows from the last to the first. -/
theorem ToBMP_eq (h : Host) (self : Bitmap Color24) (hwf : self.WF) :
    self.ToBMP h
      = .ok (headerBytes h self ++ pixelBytes self.bitmap_ (rowPad self.width_)) := by
  have hlen := hwf.1
  obtain ⟨s', e, hs'⟩ := forDown_inv
    (fun k fout => fout = headerBytes h self ++
      (((self.bitmap_.reverse.take k).map
        (fun row => rowBytes row (rowPad self.width_))).flatten))
    self.height_ hwf.2.2.2
    (fun i fout =>
      match forUp self.width_ (fun j fout =>
          match cellGet self.bitmap_ i j with
          | .error e => .error e
          | .ok c => .ok (fout ++ [c.b, c.g, c.r])) 0 fout with
      | .error e => .error e
      | .ok fout => forUp (rowPad self.width_) (fun _ fout => .ok (fout ++ [0])) 0 fout)
    (by
      intro k s hk hs
      have hi : self.height_ - 1 - k < self.bitmap_.length := by omega
      have hrow : self.bitmap_[self.height_ - 1 - k]?
          = some (self.bitmap_.get ⟨self.height_ - 1 - k, hi⟩) :=
        List.getElem?_eq_getElem hi
      have hw : (self.bitmap_.get ⟨self.height_ - 1 - k, hi⟩).length = self.width_ :=
        hwf.grid.row_length _ hi
      have e1 := rowLoop_spec self.bitmap_ _ _ hrow s
      rw [hw] at e1
      refine ⟨_, by simp only [e1]; exact padLoop_spec _ _, ?_⟩
      have hk' : k < self.bitmap_.reverse.length := by rw [List.length_reverse]; omega
      have hrev : self.bitmap_.reverse[k]?
          = some (self.bitmap_.get ⟨self.height_ - 1 - k, hi⟩) := by
        rw [List.getElem?_reverse (by omega), ← hrow]
        congr 1
        omega
      beta_reduce
      rw [hs, List.take_succ, hrev]
      simp [rowBytes])
    (self.height_ - 0) 0 (headerBytes h self) rfl (Nat.zero_le _) (by simp)
  have hfull : self.bitmap_.reverse.take self.height_ = self.bitmap_.reverse := by
    apply List.take_of_length_le
    rw [List.length_reverse]; omega
  rw [hfull] at hs'
  have hunf : self.ToBMP h = forDown
      (fun i fout =>
      match forUp self.width_ (fun j fout =>
          match cellGet self.bitmap_ i j with
          | .error e => .error e
          | .ok c => .ok (fout ++ [c.b, c.g, c.r])) 0 fout with
      | .error e => .error e
      | .ok fout => forUp (rowPad self.width_) (fun _ fout => .ok (fout ++ [0])) 0 fout)
      (sub32 (self.height_ - 0) 1) (headerBytes h self) := by
    simp only [Bitmap.ToBMP, headerBytes, List.nil_append, Nat.sub_zero]
  rw [hunf, e, hs']
  rfl

/-! ## Byte order -/

theorem IsBigEndian_eq (h : Host) : IsBigEndian h = h.bigEndian := by
  cases h with
  | mk be ps va => cases be <;> rfl

theorem leBytes_eq_map (n : Nat) : ∀ v : Nat,
    leBytes n v = (List.range n).map (fun k => v / 256 ^ k % 256) := by
  induction n with
  | zero => intro v; rfl
  | succ n ih =>
    intro v
    rw [leBytes, ih, List.range_succ_eq_map, List.map_cons, List.map_map]
    congr 1
    · simp
    · apply List.map_congr_left
      intro k _
      simp only [Function.comp, Nat.succ_eq_add_one, Nat.pow_succ', Nat.div_div_eq_div_mul]

theorem length_leBytes (n : Nat) : ∀ v : Nat, (leBytes n v).length = n := by
  induction n with
  | zero => intro v; rfl
  | succ n ih => intro v; simp [leBytes, ih]

theorem leValue_leBytes (n : Nat) : ∀ v : Nat, leValue (leBytes n v) = v % 256 ^ n := by
  induction n with
  | zero => intro v; simp [leBytes, leValue, Nat.mod_one]
  | succ n ih =>
    intro v
    rw [leBytes, leValue, ih, Nat.pow_succ', Nat.mod_mul]

/-- On a little-endian host `Write_` appends the bytes of the value, least
significant byte first. -/
theorem Write_le (h : Host) (hle : h.bigEndian = false) (addr n v : Nat) :
    Write_ h addr n v = leBytes n v := by
  simp only [Write_, IsBigEndian_eq, hle, toMem, leBytes_eq_map]
  rfl

theorem headerBytes_le (h : Host) (hle : h.bigEndian = false) (self : Bitmap Color24) :
    headerBytes h self =
      leBytes 2 19778
        ++ leBytes 4 (add32 54 (mul32 (mul32 3 self.height_) self.width_))
        ++ leBytes 4 0 ++ leBytes 4 54 ++ leBytes 4 40
        ++ leBytes 4 self.width_ ++ leBytes 4 self.height_
        ++ leBytes 8 1572865
        ++ leBytes 4 (mul32 (mul32 3 self.height_) self.width_)
        ++ leBytes 4 0 ++ leBytes 4 0 ++ leBytes 4 0 ++ leBytes 4 0 := by
  simp only [headerBytes, Write_le h hle]

theorem length_headerBytes_le (h : Host) (hle : h.bigEndian = false)
    (self : Bitmap Color24) : (headerBytes h self).length = 54 := by
  rw [headerBytes_le h hle]
  simp only [List.length_append, length_leBytes]

/-- On either host `Write_` appends `n` bytes. -/
theorem length_Write_ (h : Host) (addr n v : Nat) : (Write_ h addr n v).length = n := by
  unfold Write_
  split
  · rw [List.length_map, List.length_range]
  · unfold toMem
    split
    · rw [List.length_reverse, List.length_map, List.length_range]
    · rw [List.length_map, List.length_range]

/-- On either host the thirteen `Write_` calls of `ToBMP` append 54 bytes. -/
theorem length_headerBytes (h : Host) (self : Bitmap Color24) :
    (headerBytes h self).length = 54 := by
  simp only [headerBytes, List.length_append, length_Write_]

theorem mul32_mul32 (a b c : Nat) : mul32 (mul32 a b) c = (a * b * c) % U32 := by
  simp only [mul32, Nat.mod_mul_mod]

theorem add32_mod (a b : Nat) : add32 a (b % U32) = (a + b) % U32 := by
  simp only [add32, Nat.add_mod_mod]

theorem imageSize_eq (W H : Nat) : mul32 (mul32 3 H) W = (3 * W * H) % U32 := by
  rw [mul32_mul32, Nat.mul_assoc, Nat.mul_comm H W, ← Nat.mul_assoc]

theorem fileSize_eq (W H : Nat) :
    add32 54 (mul32 (mul32 3 H) W) = (54 + 3 * W * H) % U32 := by
  rw [imageSize_eq, add32_mod]

/-! ## Row padding -/

theorem rowPad_eq (w : Nat) : rowPad w = (4 - 3 * w % 4) % 4 := by
  have h3 : ∀ x : Nat, x &&& 3 = x % 4 := fun x => Nat.and_pow_two_sub_one_eq_mod x 2
  simp only [rowPad, h3, not32, mul32, U32]
  omega

/-- C4: the padding count `((~(3 * w) & 3) + 1) & 3` of `Read` and `ToBMP`
equals `(-(3 * w)) mod 4`, is at most 3, and brings the row length `3 * w` up
to the next multiple of 4. -/
theorem rowPad_spec (w : Nat) :
    (rowPad w : Int) = (-(3 * (w : Int))) % 4 ∧ rowPad w ≤ 3 ∧
      (3 * w + rowPad w) % 4 = 0 ∧ 3 * w + rowPad w = (3 * w + 3) / 4 * 4 := by
  rw [rowPad_eq]
  omega

/-! ## Layout of the written file -/

theorem field_append (pre mid post : List Nat) (off len : Nat)
    (hpre : pre.length = off) (hmid : mid.length = len) :
    field (pre ++ (mid ++ post)) off len = mid := by
  unfold field
  rw [List.drop_left' hpre, List.take_left' hmid]

theorem length_flatten_const {α : Type} (c : Nat) :
    ∀ L : List (List α), (∀ l ∈ L, l.length = c) → L.flatten.length = L.length * c := by
  intro L
  induction L with
  | nil => intro _; simp
  | cons l L ih =>
    intro hl
    rw [List.flatten_cons, List.length_append, hl l (List.mem_cons_self _ _),
      ih (fun l' h' => hl l' (List.mem_cons_of_mem _ h')), List.length_cons]
    rw [Nat.add_mul, Nat.one_mul, Nat.add_comm]

theorem length_rowBytes (row : List Color24) (pad : Nat) :
    (rowBytes row pad).length = 3 * row.length + pad := by
  unfold rowBytes
  rw [List.length_append, List.length_replicate,
    length_flatten_const 3 _ (by
      intro l hl
      obtain ⟨c, _, rfl⟩ := List.mem_map.mp hl
      rfl),
    List.length_map, Nat.mul_comm]

theorem length_pixelBytes (b : List (List Color24)) (W pad : Nat)
    (hb : ∀ row ∈ b, row.length = W) :
    (pixelBytes b pad).length = b.length * (3 * W + pad) := by
  unfold pixelBytes
  rw [length_flatten_const (3 * W + pad) _ (by
      intro l hl
      obtain ⟨row, hrow, rfl⟩ := List.mem_map.mp hl
      rw [length_rowBytes, hb row (List.mem_reverse.mp hrow)]),
    List.length_map, List.length_reverse]

theorem reverse_eq_map_range {α : Type} [Inhabited α] (b : List α) :
    b.reverse = (List.range b.length).map (fun k => (b[b.length - 1 - k]?).getD default) := by
  apply List.ext_getElem?
  intro k
  rw [List.getElem?_map]
  by_cases hk : k < b.length
  · have hk' : b.length - 1 - k < b.length := by omega
    rw [List.getElem?_reverse hk, List.getElem?_range hk, Option.map_some',
      List.getElem?_eq_getElem hk']
    rfl
  · rw [List.getElem?_eq_none (by rw [List.length_reverse]; omega),
      List.getElem?_eq_none (by rw [List.length_range]; omega)]
    rfl

/-- C2: on a little-endian host the first 54 bytes that `ToBMP` writes for a
well-formed raster are, each least significant byte first: the 2-byte 19778,
the 4-byte `(54 + 3*W*H) mod 2^32`, the 4-byte 0, 54, 40, `W`, `H`, the 8-byte
1572865, the 4-byte `(3*W*H) mod 2^32` and four 4-byte zeros; together 54
bytes. -/
theorem ToBMP_header (h : Host) (hle : h.bigEndian = false) (self : Bitmap Color24)
    (hwf : self.WF) :
    ∃ out, self.ToBMP h = .ok out ∧
      out.take 54 =
        leBytes 2 19778
          ++ leBytes 4 ((54 + 3 * self.width_ * self.height_) % U32)
          ++ leBytes 4 0 ++ leBytes 4 54 ++ leBytes 4 40
          ++ leBytes 4 self.width_ ++ leBytes 4 self.height_
          ++ leBytes 8 1572865
          ++ leBytes 4 ((3 * self.width_ * self.height_) % U32)
          ++ leBytes 4 0 ++ leBytes 4 0 ++ leBytes 4 0 ++ leBytes 4 0 ∧
      (out.take 54).length = 54 ∧
      leValue (leBytes 4 self.width_) = self.width_ ∧
      leValue (leBytes 4 self.height_) = self.height_ := by
  refine ⟨_, ToBMP_eq h self hwf, ?_, ?_, ?_, ?_⟩
  · rw [List.take_left' (length_headerBytes_le h hle self), headerBytes_le h hle,
      fileSize_eq, imageSize_eq]
  · rw [List.take_left' (length_headerBytes_le h hle self), length_headerBytes_le h hle]
  · rw [leValue_leBytes]
    exact Nat.mod_eq_of_lt hwf.2.2.1
  · rw [leValue_leBytes]
    exact Nat.mod_eq_of_lt hwf.2.2.2

/-- C3: after the 54 header bytes `ToBMP` (either host, well-formed raster)
writes exactly `H` row groups, group `k` holding row `H-1-k`: the bytes
`b, g, r` of each of its pixels in column order, then `pad = (-(3*W)) mod 4`
zero bytes; the output has `54 + H*(3*W + pad)` bytes. -/
theorem ToBMP_pixels (h : Host) (self : Bitmap Color24) (hwf : self.WF) :
    ∃ out, self.ToBMP h = .ok out ∧
      out.drop 54 =
        ((List.range self.height_).map (fun k =>
          rowBytes ((self.bitmap_[self.height_ - 1 - k]?).getD [])
            ((-(3 * (self.width_ : Int))) % 4).toNat)).flatten ∧
      out.length
        = 54 + self.height_ * (3 * self.width_ + ((-(3 * (self.width_ : Int))) % 4).toNat) := by
  have hpad : ((-(3 * (self.width_ : Int))) % 4).toNat = rowPad self.width_ := by
    rw [rowPad_eq]
    omega
  rw [hpad]
  refine ⟨_, ToBMP_eq h self hwf, ?_, ?_⟩
  · rw [List.drop_left' (length_headerBytes h self)]
    unfold pixelBytes
    rw [reverse_eq_map_range, List.map_map, hwf.1]
    rfl
  · rw [List.length_append, length_headerBytes h self,
      length_pixelBytes _ self.width_ _ hwf.2.1, hwf.1]

/-- C5, as amended: in the file that `ToBMP` writes (little-endian host,
well-formed raster) the 4-byte little-endian field at offset 30 is the
compression value 0, the one at offset 34 is the image data size
`(3*W*H) mod 2^32` (which is `3*W*H` when that is below `2^32`), and the one at
offset 38 is 0. -/
theorem ToBMP_fields (h : Host) (hle : h.bigEndian = false) (self : Bitmap Color24)
    (hwf : self.WF) :
    ∃ out, self.ToBMP h = .ok out ∧
      leValue (field out 30 4) = 0 ∧
      leValue (field out 34 4) = (3 * self.width_ * self.height_) % U32 ∧
      (3 * self.width_ * self.height_ < U32 →
        leValue (field out 34 4) = 3 * self.width_ * self.height_) ∧
      leValue (field out 38 4) = 0 := by
  have h8 : leBytes 8 1572865 = leBytes 4 1572865 ++ leBytes 4 0 := by decide
  have hmod : (3 * self.width_ * self.height_) % U32 % 256 ^ 4
      = (3 * self.width_ * self.height_) % U32 :=
    Nat.mod_mod _ _
  have h34 : leValue (field (headerBytes h self
      ++ pixelBytes self.bitmap_ (rowPad self.width_)) 34 4)
      = (3 * self.width_ * self.height_) % U32 := by
    have e : headerBytes h self ++ pixelBytes self.bitmap_ (rowPad self.width_)
        = (leBytes 2 19778
            ++ leBytes 4 (add32 54 (mul32 (mul32 3 self.height_) self.width_))
            ++ leBytes 4 0 ++ leBytes 4 54 ++ leBytes 4 40
            ++ leBytes 4 self.width_ ++ leBytes 4 self.height_ ++ leBytes 8 1572865)
          ++ (leBytes 4 (mul32 (mul32 3 self.height_) self.width_)
            ++ (leBytes 4 0 ++ leBytes 4 0 ++ leBytes 4 0 ++ leBytes 4 0
              ++ pixelBytes self.bitmap_ (rowPad self.width_))) := by
      rw [headerBytes_le h hle]
      simp only [List.append_assoc]
    rw [e, field_append _ _ _ 34 4 (by simp only [List.length_append, length_leBytes])
      (length_leBytes _ _), leValue_leBytes, imageSize_eq, hmod]
  refine ⟨_, ToBMP_eq h self hwf, ?_, h34, ?_, ?_⟩
  · have e : headerBytes h self ++ pixelBytes self.bitmap_ (rowPad self.width_)
        = (leBytes 2 19778
            ++ leBytes 4 (add32 54 (mul32 (mul32 3 self.height_) self.width_))
            ++ leBytes 4 0 ++ leBytes 4 54 ++ leBytes 4 40
            ++ leBytes 4 self.width_ ++ leBytes 4 self.height_ ++ leBytes 4 1572865)
          ++ (leBytes 4 0
            ++ (leBytes 4 (mul32 (mul32 3 self.height_) self.width_)
              ++ leBytes 4 0 ++ leBytes 4 0 ++ leBytes 4 0 ++ leBytes 4 0
              ++ pixelBytes self.bitmap_ (rowPad self.width_))) := by
      rw [headerBytes_le h hle, h8]
      simp only [List.append_assoc]
    rw [e, field_append _ _ _ 30 4 (by simp only [List.length_append, length_leBytes])
      (length_leBytes _ _)]
    rfl
  · intro hlt
    rw [h34]
    exact Nat.mod_eq_of_lt hlt
  · have e : headerBytes h self ++ pixelBytes self.bitmap_ (rowPad self.width_)
        = (leBytes 2 19778
            ++ leBytes 4 (add32 54 (mul32 (mul32 3 self.height_) self.width_))
            ++ leBytes 4 0 ++ leBytes 4 54 ++ leBytes 4 40
            ++ leBytes 4 self.width_ ++ leBytes 4 self.height_ ++ leBytes 8 1572865
            ++ leBytes 4 (mul32 (mul32 3 self.height_) self.width_))
          ++ (leBytes 4 0
            ++ (leBytes 4 0 ++ leBytes 4 0 ++ leBytes 4 0
              ++ pixelBytes self.bitmap_ (rowPad self.width_))) := by
      rw [headerBytes_le h hle]
      simp only [List.append_assoc]
    rw [e, field_append _ _ _ 38 4 (by simp only [List.length_append, length_leBytes])
      (length_leBytes _ _)]
    rfl

/-! ## The reader -/

theorem leValue_eq_foldr (l : List Nat) :
    l.foldr (fun byte acc => byte + 256 * acc) 0 = leValue l := by
  induction l with
  | nil => rfl
  | cons a l ih => rw [List.foldr_cons, ih, leValue]

/-- On either host `Read_` decodes the next `n` bytes of the stream most
significant byte first: the little-endian branch reverses the bytes, the
big-endian branch copies them. -/
theorem Read_eq (h : Host) (n : Nat) (fin : List Nat) (hlen : n ≤ fin.length) :
    Read_ h n fin = .ok (beValue (fin.take n), fin.drop n) := by
  have hn : ¬ fin.length < n := by omega
  cases h with
  | mk be ps va =>
    cases be
    · simp only [Read_, hn, if_false, IsBigEndian_eq, fromMem, leValue_eq_foldr, beValue]
      rfl
    · simp only [Read_, hn, if_false, IsBigEndian_eq, fromMem, leValue_eq_foldr, beValue]
      rfl

theorem Read_short (h : Host) (n : Nat) (fin : List Nat) (hlen : fin.length < n) :
    Read_ h n fin = .error .uninit_read := by
  simp only [Read_, hlen, if_true]

theorem ok_bind {α β : Type} (a : α) (f : α → Res β) :
    (Except.ok a >>= f : Res β) = f a := rfl

/-- The first eight `Read_` calls of `Read` on a stream of at least 30 bytes. -/
theorem Read_prefix (h : Host) (fin : List Nat) (hlen : 30 ≤ fin.length) :
    Read_ h 2 fin = .ok (beValue (fin.take 2), fin.drop 2) ∧
    Read_ h 8 (fin.drop 2) = .ok (beValue ((fin.drop 2).take 8), fin.drop 10) ∧
    Read_ h 4 (fin.drop 10) = .ok (beValue (field fin 10 4), fin.drop 14) ∧
    Read_ h 4 (fin.drop 14) = .ok (beValue (field fin 14 4), fin.drop 18) ∧
    Read_ h 4 (fin.drop 18) = .ok (beValue (field fin 18 4), fin.drop 22) ∧
    Read_ h 4 (fin.drop 22) = .ok (beValue (field fin 22 4), fin.drop 26) ∧
    Read_ h 2 (fin.drop 26) = .ok (beValue (field fin 26 2), fin.drop 28) ∧
    Read_ h 2 (fin.drop 28) = .ok (beValue (field fin 28 2), fin.drop 30) := by
  refine ⟨Read_eq h 2 fin (by omega), ?_, ?_, ?_, ?_, ?_, ?_, ?_⟩ <;>
    (rw [Read_eq _ _ _ (by rw [List.length_drop]; omega), List.drop_drop]; try rfl)

/-- The reader returns at once, leaving the raster as it was, when the 2-byte
field at offset 28, decoded most significant byte first, is not 24. -/
theorem Read_rejects_depth (h : Host) (fin : List Nat) (self : Bitmap Color24)
    (hlen : 30 ≤ fin.length) (hbpp : toSigned 2 (beValue (field fin 28 2)) ≠ 24) :
    Bitmap.Read h (some fin) self = .ok self := by
  obtain ⟨e1, e2, e3, e4, e5, e6, e7, e8⟩ := Read_prefix h fin hlen
  unfold Bitmap.Read
  simp only [e1, e2, e3, e4, e5, e6, e7, e8, ok_bind]
  rw [if_pos hbpp]

/-- The reader returns at once, leaving the raster as it was, when the 4-byte
compression field at offset 30 is not 0. -/
theorem Read_rejects_compression (h : Host) (fin : List Nat) (self : Bitmap Color24)
    (hlen : 34 ≤ fin.length) (hbpp : toSigned 2 (beValue (field fin 28 2)) = 24)
    (hcomp : toSigned 4 (beValue (field fin 30 4)) ≠ 0) :
    Bitmap.Read h (some fin) self = .ok self := by
  obtain ⟨e1, e2, e3, e4, e5, e6, e7, e8⟩ := Read_prefix h fin (by omega)
  have e9 : Read_ h 4 (fin.drop 30) = .ok (beValue (field fin 30 4), fin.drop 34) := by
    rw [Read_eq _ _ _ (by rw [List.length_drop]; omega), List.drop_drop]; rfl
  have hbpp' : ¬ toSigned 2 (beValue (field fin 28 2)) ≠ 24 := fun hne => hne hbpp
  unfold Bitmap.Read
  simp only [e1, e2, e3, e4, e5, e6, e7, e8, ok_bind]
  rw [if_neg hbpp']
  simp only [e9, ok_bind]
  rw [if_pos hcomp]

/-- On a little-endian host the reader rejects every file that the writer
produces: the bits-per-pixel bytes `18 00` are decoded as 6144. -/
theorem Read_ToBMP_unchanged (h : Host) (hle : h.bigEndian = false)
    (r : Bitmap Color24) (hwf : r.WF) (self : Bitmap Color24) :
    ∃ out, r.ToBMP h = .ok out ∧ Bitmap.Read h (some out) self = .ok self := by
  refine ⟨_, ToBMP_eq h r hwf, ?_⟩
  have h8 : leBytes 8 1572865 = leBytes 2 1 ++ (leBytes 2 24 ++ leBytes 4 0) := by decide
  have e : headerBytes h r ++ pixelBytes r.bitmap_ (rowPad r.width_)
      = (leBytes 2 19778
          ++ leBytes 4 (add32 54 (mul32 (mul32 3 r.height_) r.width_))
          ++ leBytes 4 0 ++ leBytes 4 54 ++ leBytes 4 40
          ++ leBytes 4 r.width_ ++ leBytes 4 r.height_ ++ leBytes 2 1)
        ++ (leBytes 2 24
          ++ (leBytes 4 0 ++ leBytes 4 (mul32 (mul32 3 r.height_) r.width_)
            ++ leBytes 4 0 ++ leBytes 4 0 ++ leBytes 4 0 ++ leBytes 4 0
            ++ pixelBytes r.bitmap_ (rowPad r.width_))) := by
    rw [headerBytes_le h hle, h8]
    simp only [List.append_assoc]
  apply Read_rejects_depth
  · rw [List.length_append, length_headerBytes_le h hle]
    omega
  · rw [e, field_append _ _ _ 28 2 (by simp only [List.length_append, length_leBytes])
      (length_leBytes _ _)]
    decide

/-! ## The claims at concrete rasters -/

/-- C1, at a failing input: on a little-endian host `ToBMP` writes `file2x2`
for the 2×2 raster `sample2x2`, and `Read` of that file into a fresh 0×0
raster returns with the raster still 0×0: the round trip does not reproduce
the raster. -/
theorem Read_ToBMP_sample2x2 :
    sample2x2.ToBMP littleEndianHost = .ok file2x2 ∧
    Bitmap.Read littleEndianHost (some file2x2) Bitmap.empty = .ok Bitmap.empty ∧
    (Bitmap.empty : Bitmap Color24).width_ ≠ sample2x2.width_ := by
  refine ⟨?_, rfl, by decide⟩
  rw [ToBMP_eq _ _ (by decide)]
  rfl

/-- Witness for C2: the header of the file written for `sample2x2`. -/
theorem ToBMP_header_witness :
    littleEndianHost.bigEndian = false ∧ sample2x2.WF ∧
    ∃ out, sample2x2.ToBMP littleEndianHost = .ok out ∧
      out.take 54 = file2x2.take 54 := by
  refine ⟨rfl, by decide, ?_⟩
  obtain ⟨out, h1, h2, _⟩ := ToBMP_header littleEndianHost rfl sample2x2 (by decide)
  exact ⟨out, h1, h2.trans (by decide)⟩

/-- Witness for C3: the pixel area written for the 3×2 raster `sample3x2`, whose
rows take 9 bytes and 3 bytes of padding, on a little-endian and on a
big-endian host. -/
theorem ToBMP_pixels_witness :
    sample3x2.WF ∧
    (∃ out, sample3x2.ToBMP littleEndianHost = .ok out ∧
      out.drop 54 = [10, 11, 12, 13, 14, 15, 16, 17, 18, 0, 0, 0,
                     1, 2, 3, 4, 5, 6, 7, 8, 9, 0, 0, 0] ∧
      out.length = 78) ∧
    (∃ out, sample3x2.ToBMP (bigEndianHost (fun _ => 140737488347384)) = .ok out ∧
      out.drop 54 = [10, 11, 12, 13, 14, 15, 16, 17, 18, 0, 0, 0,
                     1, 2, 3, 4, 5, 6, 7, 8, 9, 0, 0, 0] ∧
      out.length = 78) := by
  refine ⟨by decide, ?_, ?_⟩
  · obtain ⟨out, h1, h2, h3⟩ := ToBMP_pixels littleEndianHost sample3x2 (by decide)
    exact ⟨out, h1, h2.trans (by decide), h3.trans (by decide)⟩
  · obtain ⟨out, h1, h2, h3⟩ :=
      ToBMP_pixels (bigEndianHost (fun _ => 140737488347384)) sample3x2 (by decide)
    exact ⟨out, h1, h2.trans (by decide), h3.trans (by decide)⟩

/-- C5, counterexample: for the 1×1 raster `sample1x1` on a little-endian host
it is not the case that the field at offset 34 of the written file is 0 and the
field at offset 38 is `3*W*H = 3`. -/
theorem ToBMP_offsets_counterexample :
    ¬ ∃ out, sample1x1.ToBMP littleEndianHost = .ok out ∧
      leValue (field out 34 4) = 0 ∧
      leValue (field out 38 4) = 3 * sample1x1.width_ * sample1x1.height_ := by
  rintro ⟨out, h1, h2, _⟩
  rw [ToBMP_eq _ _ (by decide)] at h1
  have hout : out = file1x1 := by
    injection h1 with h1
    rw [← h1]
    rfl
  rw [hout] at h2
  exact absurd h2 (by decide)

/-- Witness for C5 as amended: the fields at offsets 30, 34 and 38 of the file
written for `sample1x1`. -/
theorem ToBMP_fields_witness :
    littleEndianHost.bigEndian = false ∧ sample1x1.WF ∧
    ∃ out, sample1x1.ToBMP littleEndianHost = .ok out ∧
      leValue (field out 30 4) = 0 ∧ leValue (field out 34 4) = 3 ∧
      leValue (field out 38 4) = 0 := by
  refine ⟨rfl, by decide, ?_⟩
  obtain ⟨out, h1, h2, h3, _, h5⟩ := ToBMP_fields littleEndianHost rfl sample1x1 (by decide)
  exact ⟨out, h1, h2, h3.trans (by decide), h5⟩

/-- C6, at a failing input: the bits-per-pixel field at offset 28 of
`fileMsbFirst` is, read least significant byte first, 6144 and not 24; `Read`
does not reject the file but resizes the fresh 0×0 raster to 1×1 and stores
the pixel `9, 8, 7` from the stream, on a little-endian and on a big-endian
host alike. -/
theorem Read_accepts_msb_first_depth :
    leValue (field fileMsbFirst 28 2) = 6144 ∧
    Bitmap.Read littleEndianHost (some fileMsbFirst) Bitmap.empty
      = .ok ⟨[[⟨9, 8, 7⟩]], 1, 1⟩ ∧
    Bitmap.Read (bigEndianHost (fun _ => 0)) (some fileMsbFirst) Bitmap.empty
      = .ok ⟨[[⟨9, 8, 7⟩]], 1, 1⟩ := by
  refine ⟨by decide, ?_, ?_⟩
  · simp only [Bitmap.Read, Bitmap.resize, eachRow, forUp_eq_fuel _ _ _ _ _ rfl,
      forDown_eq_fuel _ _ _ _ rfl]
    rfl
  · simp only [Bitmap.Read, Bitmap.resize, eachRow, forUp_eq_fuel _ _ _ _ _ rfl,
      forDown_eq_fuel _ _ _ _ rfl]
    rfl

/-- Witness for C7: `at(2, 0)` throws and `at(0, 1)` reads the cell of `bmp[0][1]`
on the 2×2 raster `sample2x2`. -/
theorem at_checked_witness :
    sample2x2.WF ∧ sample2x2.at 2 0 = .error .out_of_range ∧
    ∃ row c, sample2x2.bitmap_[1]? = some row ∧ row[0]? = some c ∧
      sample2x2.at 0 1 = .ok c ∧ (sample2x2.index 0).index 1 = .ok c :=
  ⟨by decide,
   (at_checked sample2x2 (by decide) 2 0).1.mpr (Or.inl (by decide)),
   (at_checked sample2x2 (by decide) 0 1).2 (by decide) (by decide)⟩

/-- Witness for C8: `Fill(7, 1, 1, 0, c)` on `sample2x2`, corners in reverse order
and reaching outside. -/
theorem Fill_rect_witness :
    sample2x2.WF ∧
    ∃ r', sample2x2.Fill 7 1 1 0 ⟨9, 9, 9⟩ = .ok r' ∧
      r'.width_ = 2 ∧ r'.height_ = 2 ∧ r'.WF ∧
      ∀ x y, x < 2 → y < 2 →
        r'.at x y =
          if min 7 1 ≤ x ∧ x < max 7 1 ∧ min 1 0 ≤ y ∧ y < max 1 0 then .ok ⟨9, 9, 9⟩
          else sample2x2.at x y :=
  ⟨by decide, Fill_rect sample2x2 (by decide) 7 1 1 0 ⟨9, 9, 9⟩⟩

/-- Witness for C9: `Trim(9, 0, 1, 1)` on the 3×2 raster `sample3x2` leaves the
2×1 block starting at column 1. -/
theorem Trim_spec_witness :
    sample3x2.WF ∧
    ∃ r', sample3x2.Trim 9 0 1 1 = .ok r' ∧ r'.width_ = 2 ∧ r'.height_ = 1 ∧ r'.WF ∧
      ∀ i j, i < 2 → j < 1 → r'.at i j = sample3x2.at (i + 1) (j + 0) :=
  ⟨by decide, (Trim_spec sample3x2 (by decide) 9 0 1 1).2 (by decide)⟩

/-- Witness for C10: growing `sample2x2` to 4×3 and resizing back to 2×2. -/
theorem resize_spec_witness :
    sample2x2.WF ∧
    ∃ r', sample2x2.resize 4 3 = .ok r' ∧ r'.width_ = 4 ∧ r'.height_ = 3 ∧
      (∀ x y, x < 4 → y < 3 →
        r'.at x y = if x < 2 ∧ y < 2 then sample2x2.at x y else .ok default) ∧
      r'.resize 2 2 = .ok sample2x2 := by
  refine ⟨by decide, ?_⟩
  obtain ⟨r', h1, h2, h3, h4, h5⟩ := resize_spec sample2x2 (by decide) 4 3
  exact ⟨r', h1, h2, h3, h4, h5 (by decide) (by decide)⟩

/-! ## Packed-integer conversion of a pixel -/

/-- The indices of a 4-byte object. -/
theorem range_four : List.range 4 = [0, 1, 2, 3] := by decide

/-- The four bytes of an `unsigned int` in memory on a little-endian host. -/
theorem toMem4_le (h : Host) (hle : h.bigEndian = false) (v : Nat) :
    toMem h 4 v = [v % 256, v / 256 % 256, v / 65536 % 256, v / 16777216 % 256] := by
  simp only [toMem, hle, range_four, List.map_cons, List.map_nil]
  norm_num

/-- The four bytes of an `unsigned int` in memory on a big-endian host. -/
theorem toMem4_be (h : Host) (hbe : h.bigEndian = true) (v : Nat) :
    toMem h 4 v = [v / 16777216 % 256, v / 65536 % 256, v / 256 % 256, v % 256] := by
  simp only [toMem, hbe, range_four, List.map_cons, List.map_nil]
  norm_num

/-- On a little-endian host the packed integer of a pixel is `b + 256 g + 65536 r`. -/
theorem toUInt32_le (h : Host) (hle : h.bigEndian = false) (c : Color24) (hc : c.valid) :
    Color24.toUInt32 h c = c.b + 256 * c.g + 65536 * c.r := by
  obtain ⟨hb, hg, hr⟩ := hc
  simp only [Color24.toUInt32, toMem4_le h hle, fromMem, hle, List.set_cons_zero,
    List.set_cons_succ, List.foldr_cons, List.foldr_nil, U32]
  norm_num
  omega

/-- On a big-endian host the packed integer of a pixel is
`16777216 b + 65536 g + 256 r`. -/
theorem toUInt32_be (h : Host) (hbe : h.bigEndian = true) (c : Color24) (hc : c.valid) :
    Color24.toUInt32 h c = 16777216 * c.b + 65536 * c.g + 256 * c.r := by
  obtain ⟨hb, hg, hr⟩ := hc
  simp only [Color24.toUInt32, toMem4_be h hbe, fromMem, hbe, List.set_cons_zero,
    List.set_cons_succ, List.foldr_cons, List.foldr_nil, U32, List.reverse_cons,
    List.reverse_nil, List.nil_append, List.cons_append, if_true]
  norm_num
  omega

/-- C18: building a `Color24` from the packed integer of a pixel gives the pixel
back on either host; on a little-endian host the packed integer is
`b + 256*g + 65536*r`, its top byte is zero, and packing the pixel built from
an integer `i` gives `i mod 2^24`. -/
theorem Color24_packed (h : Host) (c : Color24) (hc : c.valid) (i : Nat) :
    Color24.ofUInt32 h (Color24.toUInt32 h c) = c ∧
    (h.bigEndian = false →
      Color24.toUInt32 h c = c.b + 256 * c.g + 65536 * c.r ∧
      Color24.toUInt32 h c / 16777216 = 0 ∧
      Color24.toUInt32 h (Color24.ofUInt32 h i) = i % 16777216) := by
  have hc' := hc
  obtain ⟨hb, hg, hr⟩ := hc'
  constructor
  · cases hbe : h.bigEndian
    · rw [toUInt32_le h hbe c hc]
      simp only [Color24.ofUInt32, toMem4_le h hbe, List.getElem?_cons_zero,
        List.getElem?_cons_succ, Option.getD_some]
      cases c with
      | mk b g r =>
        simp only at hb hg hr ⊢
        refine Color24.mk.injEq .. |>.mpr ⟨?_, ?_, ?_⟩ <;> omega
    · rw [toUInt32_be h hbe c hc]
      simp only [Color24.ofUInt32, toMem4_be h hbe, List.getElem?_cons_zero,
        List.getElem?_cons_succ, Option.getD_some]
      cases c with
      | mk b g r =>
        simp only at hb hg hr ⊢
        refine Color24.mk.injEq .. |>.mpr ⟨?_, ?_, ?_⟩ <;> omega
  · intro hle
    refine ⟨toUInt32_le h hle c hc, ?_, ?_⟩
    · rw [toUInt32_le h hle c hc]
      omega
    · have hv : (Color24.ofUInt32 h i).valid := by
        simp only [Color24.ofUInt32, toMem4_le h hle, List.getElem?_cons_zero,
          List.getElem?_cons_succ, Option.getD_some, Color24.valid]
        omega
      rw [toUInt32_le h hle _ hv]
      simp only [Color24.ofUInt32, toMem4_le h hle, List.getElem?_cons_zero,
        List.getElem?_cons_succ, Option.getD_some]
      omega

/-! ## Insert -/

/-- Addition on `unsigned int` without overflow. -/
theorem add32_of_lt {a b : Nat} (h : a + b < U32) : add32 a b = a + b := by
  simp only [add32]
  exact Nat.mod_eq_of_lt h

/-- The inner loop of `Insert` on grids: it returns, keeps the shape and copies
the cells `0 .. xm-x-1` of row `il` of the argument into row `i`. -/
theorem insertRow_spec {b cb : List (List Color)} {W H w h : Nat}
    (hg : Grid b W H) (hc : Grid cb w h) (x xm i il : Nat)
    (hi : i < H) (hil : il < h) (hxm : xm ≤ W) (hxw : xm ≤ w + x) (hw : w < U32) :
    ∃ jl b', Bitmap.insertRow (some cb) x xm i il b = .ok (jl, b') ∧ Grid b' W H ∧
      ∀ r col, cellGet b' r col =
        if r = i ∧ x ≤ col ∧ col < xm then cellGet cb il (col - x) else cellGet b r col := by
  unfold Bitmap.insertRow
  by_cases hxx : x ≤ xm
  · obtain ⟨⟨jl, b'⟩, e, _, _, hgb, hb⟩ := forUp_inv
      (fun j (st : Nat × List (List Color)) => x ≤ j ∧ st.1 = j - x ∧ Grid st.2 W H ∧
        ∀ r col, cellGet st.2 r col =
          if r = i ∧ x ≤ col ∧ col < j then cellGet cb il (col - x) else cellGet b r col)
      xm
      (fun j (st : Nat × List (List Color)) =>
        match cellGet cb il st.1 with
        | .error e => .error e
        | .ok v =>
          match cellSet st.2 i j v with
          | .error e => .error e
          | .ok b' => .ok (add32 st.1 1, b'))
      (by
        intro j st hj ⟨hxj, hjl, hgs, hs⟩
        obtain ⟨v, hv⟩ := cellGet_of_grid hc hil (show st.1 < w by omega)
        obtain ⟨t, et, hgt, ht⟩ := cellSet_spec hgs hi (show j < W by omega) v
        refine ⟨(add32 st.1 1, t), ?_, by omega, ?_, hgt, ?_⟩
        · simp only [hv, et]
        · show add32 st.1 1 = j + 1 - x
          rw [add32_of_lt (by omega)]
          omega
        · intro r col
          show cellGet t r col = _
          rw [ht r col, hs r col]
          by_cases h1 : r = i
          · by_cases h2 : col = j
            · subst h1; subst h2
              rw [if_pos ⟨rfl, rfl⟩, if_pos ⟨rfl, hxj, by omega⟩, ← hv, hjl]
            · rw [if_neg (fun hh => h2 hh.2)]
              by_cases h3 : r = i ∧ x ≤ col ∧ col < j
              · rw [if_pos h3, if_pos ⟨h3.1, h3.2.1, by omega⟩]
              · rw [if_neg h3, if_neg (fun hh => h3 ⟨hh.1, hh.2.1, by omega⟩)]
          · rw [if_neg (fun hh => h1 hh.1), if_neg (fun hh => h1 hh.1),
              if_neg (fun hh => h1 hh.1)])
      (xm - x) x (0, b) rfl hxx
      ⟨Nat.le_refl _, by simp, hg, by intro r col; rw [if_neg (by omega)]⟩
    exact ⟨jl, b', e, hgb, hb⟩
  · refine ⟨0, b, forUp_ge _ _ _ _ (by omega), hg, ?_⟩
    intro r col
    rw [if_neg (by omega)]

/-- The outer loop of `Insert` on grids. -/
theorem insertRows_spec {b cb : List (List Color)} {W H w h : Nat}
    (hg : Grid b W H) (hc : Grid cb w h) (x xm y ym : Nat)
    (hxm : xm ≤ W) (hxw : xm ≤ w + x) (hym : ym ≤ H) (hyh : ym ≤ h + y)
    (hw : w < U32) (hh : h < U32) :
    ∃ il b', Bitmap.insertRows (some cb) x xm y ym b = .ok (il, b') ∧ Grid b' W H ∧
      ∀ r col, cellGet b' r col =
        if y ≤ r ∧ r < ym ∧ x ≤ col ∧ col < xm
        then cellGet cb (r - y) (col - x) else cellGet b r col := by
  unfold Bitmap.insertRows
  by_cases hyy : y ≤ ym
  · obtain ⟨⟨il, b'⟩, e, _, _, hgb, hb⟩ := forUp_inv
      (fun i (st : Nat × List (List Color)) => y ≤ i ∧ st.1 = i - y ∧ Grid st.2 W H ∧
        ∀ r col, cellGet st.2 r col =
          if y ≤ r ∧ r < i ∧ x ≤ col ∧ col < xm
          then cellGet cb (r - y) (col - x) else cellGet b r col)
      ym
      (fun i (st : Nat × List (List Color)) =>
        match Bitmap.insertRow (some cb) x xm i st.1 st.2 with
        | .error e => .error e
        | .ok (_, b') => .ok (add32 st.1 1, b'))
      (by
        intro i st hi ⟨hyi, hil, hgs, hs⟩
        obtain ⟨jl, t, et, hgt, ht⟩ := insertRow_spec hgs hc x xm i st.1
          (show i < H by omega) (show st.1 < h by omega) hxm hxw hw
        refine ⟨(add32 st.1 1, t), ?_, by omega, ?_, hgt, ?_⟩
        · simp only [et]
        · show add32 st.1 1 = i + 1 - y
          rw [add32_of_lt (by omega)]
          omega
        · intro r col
          show cellGet t r col = _
          rw [ht r col, hs r col]
          by_cases h1 : r = i
          · subst h1
            by_cases h2 : x ≤ col ∧ col < xm
            · rw [if_pos ⟨rfl, h2⟩, if_pos ⟨hyi, by omega, h2⟩, hil]
            · rw [if_neg (fun hh => h2 hh.2), if_neg (by omega),
                if_neg (fun hh => h2 hh.2.2)]
          · rw [if_neg (fun hh => h1 hh.1)]
            by_cases h3 : y ≤ r ∧ r < i ∧ x ≤ col ∧ col < xm
            · rw [if_pos h3, if_pos ⟨h3.1, by omega, h3.2.2⟩]
            · rw [if_neg h3, if_neg (fun hh => h3 ⟨hh.1, by omega, hh.2.2⟩)])
      (ym - y) y (0, b) rfl hyy
      ⟨Nat.le_refl _, by simp, hg, by intro r col; rw [if_neg (by omega)]⟩
    exact ⟨il, b', e, hgb, hb⟩
  · refine ⟨0, b, forUp_ge _ _ _ _ (by omega), hg, ?_⟩
    intro r col
    rw [if_neg (by omega)]

/-- A property kept by every iteration that returns is kept by the loop when it
returns. -/
theorem forUp_preserves {σ : Type} (P : σ → Prop) (hi : Nat) (body : Nat → σ → Res σ)
    (hbody : ∀ i s s', P s → body i s = .ok s' → P s') :
    ∀ (n i : Nat) (s s' : σ), hi - i = n → P s → forUp hi body i s = .ok s' → P s' := by
  intro n
  induction n with
  | zero =>
    intro i s s' hn hP h
    rw [forUp_ge _ _ _ _ (by omega)] at h
    injection h with h
    rw [← h]
    exact hP
  | succ n ih =>
    intro i s s' hn hP h
    rw [forUp_lt _ _ _ _ (by omega)] at h
    cases hb : body i s with
    | error e => rw [hb] at h; cases h
    | ok s1 =>
      rw [hb] at h
      exact ih (i + 1) s1 s' (by omega) (hbody i s s1 hP hb) h

/-- An assignment `b[i][j] = c` that returns keeps the shape of the storage. -/
theorem cellSet_grid {b b' : List (List Color)} {W H : Nat} (hg : Grid b W H)
    (i j : Nat) (c : Color) (h : cellSet b i j c = .ok b') : Grid b' W H := by
  by_cases hi : i < H
  · by_cases hj : j < W
    · obtain ⟨t, et, hgt, _⟩ := cellSet_spec hg hi hj c
      rw [et] at h
      injection h with h
      rw [← h]
      exact hgt
    · have hi' : i < b.length := by rw [hg.1]; exact hi
      have hrow := hg.row_length i hi'
      simp only [cellSet, vecGet_of_lt b i hi', vecSet,
        show ¬ j < (b.get ⟨i, hi'⟩).length by omega, if_false] at h
      cases h
  · simp only [cellSet, vecGet_of_ge b i (by rw [hg.1]; omega)] at h
    cases h

/-- The thin branch of `LineX` keeps the shape whenever it returns. -/
theorem thinLine_grid {b b' : List (List Color)} {W H : Nat} (hg : Grid b W H)
    (x ya yb : Nat) (c : Color)
    (h : forUp yb (fun i b => cellSet b i x c) ya b = .ok b') : Grid b' W H :=
  forUp_preserves (fun s => Grid s W H) yb (fun i b => cellSet b i x c)
    (fun i _ _ hs hb => cellSet_grid hs i x c hb) (yb - ya) ya b b' rfl hg h

/-- With `size != 1`, `LineX` on a well-formed raster always returns and keeps the
raster well-formed: both loop bounds are clamped. -/
theorem LineX_thick (self : Bitmap Color) (hwf : self.WF) (x ya yb size : Nat) (c : Color)
    (hs : size ≠ 1) :
    ∃ r', self.LineX x ya yb c size = .ok r' ∧ r'.WF := by
  have key : ∀ xa ya' xe ye : Nat, ∃ b',
      Bitmap.fillLoops self.bitmap_ xa ya'
        (if xe > self.width_ then self.width_ else xe)
        (if ye > self.height_ then self.height_ else ye) c = .ok b' ∧
      Grid b' self.width_ self.height_ := by
    intro xa ya' xe ye
    obtain ⟨b', e, hg, _⟩ := fillLoops_spec hwf.grid xa ya'
      (if xe > self.width_ then self.width_ else xe)
      (if ye > self.height_ then self.height_ else ye) c
      (by split_ifs <;> omega) (by split_ifs <;> omega)
    exact ⟨b', e, hg⟩
  by_cases hy : ya > yb
  · by_cases hx : x < size >>> 1
    · obtain ⟨b', e, hg⟩ := key 0 yb (add32 0 size) ya
      refine ⟨{ self with bitmap_ := b' }, ?_, ⟨hg.1, hg.2, hwf.2.2⟩⟩
      simp only [Bitmap.LineX, hy, hx, hs, if_true, if_false, e]
    · obtain ⟨b', e, hg⟩ := key (sub32 x (size >>> 1)) yb
        (add32 (sub32 x (size >>> 1)) size) ya
      refine ⟨{ self with bitmap_ := b' }, ?_, ⟨hg.1, hg.2, hwf.2.2⟩⟩
      simp only [Bitmap.LineX, hy, hx, hs, if_true, if_false, e]
  · by_cases hx : x < size >>> 1
    · obtain ⟨b', e, hg⟩ := key 0 ya (add32 0 size) yb
      refine ⟨{ self with bitmap_ := b' }, ?_, ⟨hg.1, hg.2, hwf.2.2⟩⟩
      simp only [Bitmap.LineX, hy, hx, hs, if_true, if_false, e]
    · obtain ⟨b', e, hg⟩ := key (sub32 x (size >>> 1)) ya
        (add32 (sub32 x (size >>> 1)) size) yb
      refine ⟨{ self with bitmap_ := b' }, ?_, ⟨hg.1, hg.2, hwf.2.2⟩⟩
      simp only [Bitmap.LineX, hy, hx, hs, if_true, if_false, e]

/-- Whenever `LineX` returns on a well-formed raster the raster is well-formed. -/
theorem LineX_keeps_WF (self : Bitmap Color) (hwf : self.WF) (x ya yb size : Nat) (c : Color)
    (r' : Bitmap Color) (h : self.LineX x ya yb c size = .ok r') : r'.WF := by
  by_cases hs : size = 1
  · have thin : ∀ lo hi : Nat,
        (match forUp hi (fun i b => cellSet b i x c) lo self.bitmap_ with
          | Except.ok b' => Except.ok ({ self with bitmap_ := b' } : Bitmap Color)
          | Except.error e => Except.error e) = Except.ok r' → r'.WF := by
      intro lo hi hm
      cases hf : forUp hi (fun i b => cellSet b i x c) lo self.bitmap_ with
      | error e => rw [hf] at hm; cases hm
      | ok b' =>
        rw [hf] at hm
        injection hm with hm
        have hg := thinLine_grid hwf.grid x lo hi c hf
        rw [← hm]
        exact ⟨hg.1, hg.2, hwf.2.2⟩
    by_cases hy : ya > yb
    · simp only [Bitmap.LineX, hy, hs, if_true] at h
      exact thin yb ya h
    · simp only [Bitmap.LineX, hy, hs, if_true, if_false] at h
      exact thin ya yb h
  · obtain ⟨r1, e, hr⟩ := LineX_thick self hwf x ya yb size c hs
    rw [e] at h
    injection h with h
    rw [← h]
    exact hr

/-- The operation `LineY` on a well-formed raster always returns and keeps the raster
well-formed. -/
theorem LineY_ok (self : Bitmap Color) (hwf : self.WF) (xa xb y size : Nat) (c : Color) :
    ∃ r', self.LineY xa xb y c size = .ok r' ∧ r'.WF := by
  have key : ∀ xa' ya xe ye : Nat, ∃ b',
      Bitmap.fillLoops self.bitmap_ xa' ya
        (if xe > self.width_ then self.width_ else xe)
        (if ye > self.height_ then self.height_ else ye) c = .ok b' ∧
      Grid b' self.width_ self.height_ := by
    intro xa' ya xe ye
    obtain ⟨b', e, hg, _⟩ := fillLoops_spec hwf.grid xa' ya
      (if xe > self.width_ then self.width_ else xe)
      (if ye > self.height_ then self.height_ else ye) c
      (by split_ifs <;> omega) (by split_ifs <;> omega)
    exact ⟨b', e, hg⟩
  by_cases hx : xa > xb
  · obtain ⟨b', e, hg⟩ := key xb (if y < size >>> 1 then 0 else sub32 y (size >>> 1)) xa
      (if y < size >>> 1 then add32 y (size >>> 1)
        else add32 (if y < size >>> 1 then 0 else sub32 y (size >>> 1)) size)
    refine ⟨{ self with bitmap_ := b' }, ?_, ⟨hg.1, hg.2, hwf.2.2⟩⟩
    simp only [Bitmap.LineY, hx, if_true, e]
  · obtain ⟨b', e, hg⟩ := key xa (if y < size >>> 1 then 0 else sub32 y (size >>> 1)) xb
      (if y < size >>> 1 then add32 y (size >>> 1)
        else add32 (if y < size >>> 1 then 0 else sub32 y (size >>> 1)) size)
    refine ⟨{ self with bitmap_ := b' }, ?_, ⟨hg.1, hg.2, hwf.2.2⟩⟩
    simp only [Bitmap.LineY, hx, if_false, e]


/-! ## Whole-raster fill and the storage invariant -/

theorem FillColor_grid (self : Bitmap Color) (hwf : self.WF) (c : Color) :
    ∃ b', self.FillColor c = .ok { self with bitmap_ := b' } ∧
      Grid b' self.width_ self.height_ ∧
      ∀ y x, y < self.height_ → x < self.width_ → cellGet b' y x = .ok c := by
  obtain ⟨b', e, hg, hb⟩ := fillLoops_spec hwf.grid 0 0 self.width_ self.height_ c
    (Nat.le_refl _) (Nat.le_refl _)
  refine ⟨b', ?_, hg, ?_⟩
  · simp only [Bitmap.FillColor, e]
  · intro y x hy hx
    rw [hb y x, if_pos ⟨Nat.zero_le _, hy, Nat.zero_le _, hx⟩]

/-- C16: `Fill(c)` on a well-formed raster returns, keeps width and height, and
afterwards `at(x, y)` returns `c` for every `x < W` and `y < H`. -/
theorem FillColor_spec (self : Bitmap Color) (hwf : self.WF) (c : Color) :
    ∃ r', self.FillColor c = .ok r' ∧
      r'.width_ = self.width_ ∧ r'.height_ = self.height_ ∧
      ∀ x y, x < self.width_ → y < self.height_ → r'.at x y = .ok c := by
  obtain ⟨b', e, _, hb⟩ := FillColor_grid self hwf c
  refine ⟨_, e, rfl, rfl, ?_⟩
  intro x y hx hy
  rw [Bitmap.at_inside _ (by exact hx) (by exact hy)]
  exact hb y x hy hx

/-- The rectangle fill on a well-formed raster always returns a well-formed raster. -/
theorem Fill_ok (self : Bitmap Color) (hwf : self.WF) (xa ya xb yb : Nat) (c : Color) :
    ∃ r', self.Fill xa ya xb yb c = .ok r' ∧ r'.WF := by
  by_cases h1 : xa > xb <;> by_cases h2 : ya > yb
  · rw [Fill_swap_x _ _ _ _ _ _ h1, Fill_swap_y _ _ _ _ _ _ h2]
    obtain ⟨r', e, _, _, hr, _⟩ := Fill_sorted self hwf xb yb xa ya c (by omega) (by omega)
    exact ⟨r', e, hr⟩
  · rw [Fill_swap_x _ _ _ _ _ _ h1]
    obtain ⟨r', e, _, _, hr, _⟩ := Fill_sorted self hwf xb ya xa yb c (by omega) (by omega)
    exact ⟨r', e, hr⟩
  · rw [Fill_swap_y _ _ _ _ _ _ h2]
    obtain ⟨r', e, _, _, hr, _⟩ := Fill_sorted self hwf xa yb xb ya c (by omega) (by omega)
    exact ⟨r', e, hr⟩
  · obtain ⟨r', e, _, _, hr, _⟩ := Fill_sorted self hwf xa ya xb yb c (by omega) (by omega)
    exact ⟨r', e, hr⟩

/-- The crop of a well-formed raster always returns a well-formed raster. -/
theorem Trim_ok (self : Bitmap Color) (hwf : self.WF) (xa ya xb yb : Nat) :
    ∃ r', self.Trim xa ya xb yb = .ok r' ∧ r'.WF := by
  rw [Trim_normalise]
  have key := Trim_spec_sorted self hwf (min xa xb) (min ya yb) (max xa xb) (max ya yb)
    (by omega) (by omega)
  by_cases ho : min xa xb ≥ self.width_ ∨ min ya yb ≥ self.height_
  · exact ⟨self, key.1 ho, hwf⟩
  · obtain ⟨r', e, _, _, hr, _⟩ := key.2 ho
    exact ⟨r', e, hr⟩

/-- The result of `resize(w, h)` has `h` rows of `w` elements, whatever the raster
was before. -/
theorem resize_ok [Inhabited Color] (self : Bitmap Color) (w h : Nat)
    (hw : w < U32) (hh : h < U32) :
    ∃ r', self.resize w h = .ok r' ∧ r'.WF := by
  refine ⟨_, resize_eq self w h, ?_, ?_, hw, hh⟩
  · show ((vecResize self.bitmap_ h).map (fun row => vecResize row w)).length = h
    rw [List.length_map, length_vecResize]
  · intro row hrow
    obtain ⟨r0, _, rfl⟩ := List.mem_map.mp hrow
    exact length_vecResize r0 w

/-- The raster `Bitmap()` is well-formed. -/
theorem empty_WF : (Bitmap.empty : Bitmap Color).WF := by
  have h0 : (0 : Nat) < U32 := by unfold U32; omega
  exact ⟨rfl, ⟨fun row hrow => absurd hrow (List.not_mem_nil row), ⟨h0, h0⟩⟩⟩

/-- The raster `Bitmap(w, h)` is well-formed. -/
theorem mk2_WF [Inhabited Color] (w h : Nat) (hw : w < U32) (hh : h < U32) :
    (Bitmap.mk2 w h : Bitmap Color).WF := by
  refine ⟨?_, ?_, hw, hh⟩
  · show (List.replicate h (List.replicate w (default : Color))).length = h
    exact List.length_replicate _ _
  · intro row hrow
    rw [List.eq_of_mem_replicate hrow]
    exact List.length_replicate _ _

/-- The operation `Insert` on well-formed rasters always returns a well-formed
raster: when `c.width_ + x` wraps, `xm` is below `x` and the loop does not run. -/
theorem Insert_ok (self c : Bitmap Color) (hwf : self.WF) (hcwf : c.WF) (x y : Nat) :
    ∃ r', self.Insert x y (.other c) = .ok r' ∧ r'.WF := by
  have hmx : add32 c.width_ x ≤ c.width_ + x := Nat.mod_le _ _
  have hmy : add32 c.height_ y ≤ c.height_ + y := Nat.mod_le _ _
  obtain ⟨il, b', e, hgb, _⟩ := insertRows_spec hwf.grid hcwf.grid x
    (min self.width_ (add32 c.width_ x)) y (min self.height_ (add32 c.height_ y))
    (by omega) (by omega) (by omega) (by omega) hcwf.2.2.1 hcwf.2.2.2
  refine ⟨{ self with bitmap_ := b' }, ?_, ⟨hgb.1, hgb.2, hwf.2.2⟩⟩
  simp only [Bitmap.Insert, Bitmap.argWidth, Bitmap.argHeight, Bitmap.argStorage, e]

/-- The inner loop of `Insert` when the argument is `*this` itself: it returns
and keeps the shape. -/
theorem insertRow_itself {b : List (List Color)} {W H : Nat} (hg : Grid b W H)
    (x xm i il : Nat) (hi : i < H) (hil : il < H) (hxm : xm ≤ W) (hxw : xm ≤ W + x)
    (hw : W < U32) :
    ∃ jl b', Bitmap.insertRow none x xm i il b = .ok (jl, b') ∧ Grid b' W H := by
  unfold Bitmap.insertRow
  by_cases hxx : x ≤ xm
  · obtain ⟨⟨jl, b'⟩, e, _, _, hgb⟩ := forUp_inv
      (fun j (st : Nat × List (List Color)) => x ≤ j ∧ st.1 = j - x ∧ Grid st.2 W H)
      xm
      (fun j (st : Nat × List (List Color)) =>
        match cellGet st.2 il st.1 with
        | .error e => .error e
        | .ok v =>
          match cellSet st.2 i j v with
          | .error e => .error e
          | .ok b' => .ok (add32 st.1 1, b'))
      (by
        intro j st hj ⟨hxj, hjl, hgs⟩
        obtain ⟨v, hv⟩ := cellGet_of_grid hgs hil (show st.1 < W by omega)
        obtain ⟨t, et, hgt, _⟩ := cellSet_spec hgs hi (show j < W by omega) v
        refine ⟨(add32 st.1 1, t), ?_, by omega, ?_, hgt⟩
        · simp only [hv, et]
        · show add32 st.1 1 = j + 1 - x
          rw [add32_of_lt (by omega)]
          omega)
      (xm - x) x (0, b) rfl hxx ⟨Nat.le_refl _, by simp, hg⟩
    exact ⟨jl, b', e, hgb⟩
  · exact ⟨0, b, forUp_ge _ _ _ _ (by omega), hg⟩

/-- The outer loop of `Insert` when the argument is `*this` itself. -/
theorem insertRows_itself {b : List (List Color)} {W H : Nat} (hg : Grid b W H)
    (x xm y ym : Nat) (hxm : xm ≤ W) (hxw : xm ≤ W + x) (hym : ym ≤ H) (hyh : ym ≤ H + y)
    (hw : W < U32) (hh : H < U32) :
    ∃ il b', Bitmap.insertRows none x xm y ym b = .ok (il, b') ∧ Grid b' W H := by
  unfold Bitmap.insertRows
  by_cases hyy : y ≤ ym
  · obtain ⟨⟨il, b'⟩, e, _, _, hgb⟩ := forUp_inv
      (fun i (st : Nat × List (List Color)) => y ≤ i ∧ st.1 = i - y ∧ Grid st.2 W H)
      ym
      (fun i (st : Nat × List (List Color)) =>
        match Bitmap.insertRow none x xm i st.1 st.2 with
        | .error e => .error e
        | .ok (_, b') => .ok (add32 st.1 1, b'))
      (by
        intro i st hi ⟨hyi, hil, hgs⟩
        obtain ⟨jl, t, et, hgt⟩ := insertRow_itself hgs x xm i st.1
          (show i < H by omega) (show st.1 < H by omega) hxm hxw hw
        refine ⟨(add32 st.1 1, t), ?_, by omega, ?_, hgt⟩
        · simp only [et]
        · show add32 st.1 1 = i + 1 - y
          rw [add32_of_lt (by omega)]
          omega)
      (ym - y) y (0, b) rfl hyy ⟨Nat.le_refl _, by simp, hg⟩
    exact ⟨il, b', e, hgb⟩
  · exact ⟨0, b, forUp_ge _ _ _ _ (by omega), hg⟩

/-- The call `a.Insert(x, y, a)` on a well-formed raster always returns a
well-formed raster. -/
theorem Insert_itself_ok (self : Bitmap Color) (hwf : self.WF) (x y : Nat) :
    ∃ r', self.Insert x y .itself = .ok r' ∧ r'.WF := by
  have hmx : add32 self.width_ x ≤ self.width_ + x := Nat.mod_le _ _
  have hmy : add32 self.height_ y ≤ self.height_ + y := Nat.mod_le _ _
  obtain ⟨il, b', e, hgb⟩ := insertRows_itself hwf.grid x
    (min self.width_ (add32 self.width_ x)) y (min self.height_ (add32 self.height_ y))
    (by omega) (by omega) (by omega) (by omega) hwf.2.2.1 hwf.2.2.2
  refine ⟨{ self with bitmap_ := b' }, ?_, ⟨hgb.1, hgb.2, hwf.2.2⟩⟩
  simp only [Bitmap.Insert, Bitmap.argWidth, Bitmap.argHeight, Bitmap.argStorage, e]

/-- C17: the storage invariant (`height_` rows of `width_` elements) holds for
`Bitmap()`, `Bitmap(w, h)` and a copy of a well-formed raster, and every
mutating operation on a well-formed raster yields a well-formed raster:
`resize`, both `Fill`s, `Point`, `LineY`, `Insert` (of another well-formed
raster, and of the raster itself) and `Trim` always return, and `LineX`
whenever it returns (always when `size != 1`). -/
theorem storage_invariant [Inhabited Color] (self other : Bitmap Color)
    (hwf : self.WF) (howf : other.WF) (w h : Nat) (hw : w < U32) (hh : h < U32)
    (xa ya xb yb x y size : Nat) (c : Color) :
    (Bitmap.empty : Bitmap Color).WF ∧ (Bitmap.mk2 w h : Bitmap Color).WF ∧
    (Bitmap.copy self).WF ∧
    (∃ r', self.resize w h = .ok r' ∧ r'.WF) ∧
    (∃ r', self.FillColor c = .ok r' ∧ r'.WF) ∧
    (∃ r', self.Fill xa ya xb yb c = .ok r' ∧ r'.WF) ∧
    (∃ r', self.Point x y c size = .ok r' ∧ r'.WF) ∧
    (∀ r', self.LineX x ya yb c size = .ok r' → r'.WF) ∧
    (size ≠ 1 → ∃ r', self.LineX x ya yb c size = .ok r' ∧ r'.WF) ∧
    (∃ r', self.LineY xa xb y c size = .ok r' ∧ r'.WF) ∧
    (∃ r', self.Insert x y (.other other) = .ok r' ∧ r'.WF) ∧
    (∃ r', self.Insert x y .itself = .ok r' ∧ r'.WF) ∧
    (∃ r', self.Trim xa ya xb yb = .ok r' ∧ r'.WF) := by
  refine ⟨?_, mk2_WF w h hw hh, hwf, resize_ok self w h hw hh, ?_,
    Fill_ok self hwf xa ya xb yb c, Fill_ok self hwf _ _ _ _ c,
    LineX_keeps_WF self hwf x ya yb size c, LineX_thick self hwf x ya yb size c,
    LineY_ok self hwf xa xb y size c, Insert_ok self other hwf howf x y,
    Insert_itself_ok self hwf x y, Trim_ok self hwf xa ya xb yb⟩
  · exact empty_WF
  · obtain ⟨b', e, hg, _⟩ := FillColor_grid self hwf c
    exact ⟨_, e, hg.1, hg.2, hwf.2.2⟩

/-! ## What `Point`, `LineY` and the move operations do -/

/-- A right shift by one bit halves. -/
theorem shiftRight_one (n : Nat) : n >>> 1 = n / 2 := by
  rw [Nat.shiftRight_eq_div_pow]

/-- Away from the left and top edges (`(size-1)/2 <= x, y`, no overflow),
`Point` colours exactly the in-bounds pixels of the square of side `size` that
starts at `(x - (size-1)/2, y - (size-1)/2)`. -/
theorem Point_interior (self : Bitmap Color) (hwf : self.WF) (x y size : Nat) (c : Color)
    (hs : 1 ≤ size) (hx : (size - 1) / 2 ≤ x) (hy : (size - 1) / 2 ≤ y)
    (hxo : x - (size - 1) / 2 + size < U32) (hyo : y - (size - 1) / 2 + size < U32) :
    ∃ r', self.Point x y c size = .ok r' ∧
      r'.width_ = self.width_ ∧ r'.height_ = self.height_ ∧
      ∀ i j, i < self.width_ → j < self.height_ →
        r'.at i j =
          if x - (size - 1) / 2 ≤ i ∧ i < x - (size - 1) / 2 + size ∧
              y - (size - 1) / 2 ≤ j ∧ j < y - (size - 1) / 2 + size
          then .ok c else self.at i j := by
  have hk : (sub32 size 1) >>> 1 = (size - 1) / 2 := by
    rw [shiftRight_one, sub32_of_le hs (by omega)]
  have hsx : sub32 x ((size - 1) / 2) = x - (size - 1) / 2 := sub32_of_le hx (by omega)
  have hsy : sub32 y ((size - 1) / 2) = y - (size - 1) / 2 := sub32_of_le hy (by omega)
  have hax : add32 (x - (size - 1) / 2) size = x - (size - 1) / 2 + size :=
    add32_of_lt hxo
  have hay : add32 (y - (size - 1) / 2) size = y - (size - 1) / 2 + size :=
    add32_of_lt hyo
  obtain ⟨r', e, h1, h2, _, h4⟩ := Fill_sorted self hwf (x - (size - 1) / 2)
    (y - (size - 1) / 2) (x - (size - 1) / 2 + size) (y - (size - 1) / 2 + size) c
    (by omega) (by omega)
  refine ⟨r', ?_, h1, h2, h4⟩
  simp only [Bitmap.Point, hk, hsx, hsy, hax, hay]
  exact e

/-- What `LineY` colours when nothing overflows: the columns
`[min xa xb, max xa xb)` of the rows `[y - size/2, y - size/2 + size)` when
`size/2 <= y`, and of the rows `[0, y + size/2)` when `y < size/2`. -/
theorem LineY_rows (self : Bitmap Color) (hwf : self.WF) (xa xb y size : Nat) (c : Color)
    (ho : y + size < U32) :
    ∃ r', self.LineY xa xb y c size = .ok r' ∧
      r'.width_ = self.width_ ∧ r'.height_ = self.height_ ∧
      ∀ i j, i < self.width_ → j < self.height_ →
        r'.at i j =
          if min xa xb ≤ i ∧ i < max xa xb ∧
              (if y < size / 2 then j < y + size / 2
               else y - size / 2 ≤ j ∧ j < y - size / 2 + size)
          then .ok c else self.at i j := by
  have key : ∀ x0 x1 : Nat, x0 ≤ x1 → ∃ b',
      Bitmap.fillLoops self.bitmap_ x0
        (if y < size >>> 1 then 0 else sub32 y (size >>> 1))
        (if x1 > self.width_ then self.width_ else x1)
        (if (if y < size >>> 1 then add32 y (size >>> 1)
              else add32 (if y < size >>> 1 then 0 else sub32 y (size >>> 1)) size)
            > self.height_ then self.height_
          else (if y < size >>> 1 then add32 y (size >>> 1)
              else add32 (if y < size >>> 1 then 0 else sub32 y (size >>> 1)) size)) c
        = .ok b' ∧
      ∀ i j, i < self.width_ → j < self.height_ →
        cellGet b' j i =
          if x0 ≤ i ∧ i < x1 ∧
              (if y < size / 2 then j < y + size / 2
               else y - size / 2 ≤ j ∧ j < y - size / 2 + size)
          then .ok c else cellGet self.bitmap_ j i := by
    intro x0 x1 _
    obtain ⟨b', e, _, hb⟩ := fillLoops_spec hwf.grid x0
      (if y < size >>> 1 then 0 else sub32 y (size >>> 1))
      (if x1 > self.width_ then self.width_ else x1)
      (if (if y < size >>> 1 then add32 y (size >>> 1)
            else add32 (if y < size >>> 1 then 0 else sub32 y (size >>> 1)) size)
          > self.height_ then self.height_
        else (if y < size >>> 1 then add32 y (size >>> 1)
            else add32 (if y < size >>> 1 then 0 else sub32 y (size >>> 1)) size)) c
      (by split_ifs <;> omega) (by split_ifs <;> omega)
    refine ⟨b', e, ?_⟩
    intro i j hi hj
    rw [hb j i]
    have hdiv : size / 2 ≤ size := Nat.div_le_self _ _
    by_cases hk : y < size / 2
    · have hk' : y < size >>> 1 := by rw [shiftRight_one]; exact hk
      have ha : add32 y (size >>> 1) = y + size / 2 := by
        rw [shiftRight_one]; exact add32_of_lt (by omega)
      simp only [hk, hk', if_true, ha]
      by_cases hc : x0 ≤ i ∧ i < x1 ∧ j < y + size / 2
      · rw [if_pos hc, if_pos]
        refine ⟨Nat.zero_le _, ?_, hc.1, ?_⟩ <;> split_ifs <;> omega
      · rw [if_neg hc, if_neg]
        intro ⟨_, a2, a3, a4⟩
        apply hc
        refine ⟨a3, ?_, ?_⟩
        · split_ifs at a4 <;> omega
        · split_ifs at a2 <;> omega
    · have hk' : ¬ y < size >>> 1 := by rw [shiftRight_one]; exact hk
      have hsb : sub32 y (size >>> 1) = y - size / 2 := by
        rw [shiftRight_one]; exact sub32_of_le (by omega) (by omega)
      have ha : add32 (y - size / 2) size = y - size / 2 + size := add32_of_lt (by omega)
      simp only [hk, hk', if_false, hsb, ha]
      by_cases hc : x0 ≤ i ∧ i < x1 ∧ y - size / 2 ≤ j ∧ j < y - size / 2 + size
      · rw [if_pos hc, if_pos]
        refine ⟨hc.2.2.1, ?_, hc.1, ?_⟩ <;> split_ifs <;> omega
      · rw [if_neg hc, if_neg]
        intro ⟨a1, a2, a3, a4⟩
        apply hc
        refine ⟨a3, ?_, a1, ?_⟩
        · split_ifs at a4 <;> omega
        · split_ifs at a2 <;> omega
  by_cases hx : xa > xb
  · obtain ⟨b', e, hb⟩ := key xb xa (by omega)
    refine ⟨{ self with bitmap_ := b' }, ?_, rfl, rfl, ?_⟩
    · simp only [Bitmap.LineY, hx, if_true, e]
    · intro i j hi hj
      rw [Bitmap.at_inside _ (by exact hi) (by exact hj), Bitmap.at_inside _ hi hj,
        Nat.min_eq_right (by omega), Nat.max_eq_left (by omega)]
      exact hb i j hi hj
  · obtain ⟨b', e, hb⟩ := key xa xb (by omega)
    refine ⟨{ self with bitmap_ := b' }, ?_, rfl, rfl, ?_⟩
    · simp only [Bitmap.LineY, hx, if_false, e]
    · intro i j hi hj
      rw [Bitmap.at_inside _ (by exact hi) (by exact hj), Bitmap.at_inside _ hi hj,
        Nat.min_eq_left (by omega), Nat.max_eq_right (by omega)]
      exact hb i j hi hj

/-- The source of a move constructor keeps its dimensions over an empty
storage, so it is well-formed only when its height was 0. -/
theorem moveCtor_source (s : Bitmap Color) :
    (Bitmap.moveCtor s).1 = s ∧ (Bitmap.moveCtor s).2 = ⟨[], s.height_, s.width_⟩ ∧
    (0 < s.height_ → ¬ (Bitmap.moveCtor s).2.WF) := by
  refine ⟨rfl, rfl, ?_⟩
  intro hpos hwf
  have h1 : (0 : Nat) = s.height_ := hwf.1
  omega

/-- The source of a move assignment keeps its dimensions over the former
storage of the destination. -/
theorem moveAssign_source (d s : Bitmap Color) :
    (Bitmap.moveAssign d s).1 = s ∧
    (Bitmap.moveAssign d s).2 = ⟨d.bitmap_, s.height_, s.width_⟩ :=
  ⟨rfl, rfl⟩

/-! ## The remaining claims at concrete rasters -/

/-- C12, at a failing input: `Point(0, 1, ink, 3)` on the blank 3×3 raster.  The
subtraction `x -= (size - 1) >> 1` wraps to `0xFFFFFFFF`, `x + size` wraps to 2,
`Fill` swaps the two and fills column 2; columns 0 and 1, which the square
centred on `(0, 1)` covers, keep their value. -/
theorem Point_wraps_at_left_edge :
    blank3x3.WF ∧
    blank3x3.Point 0 1 ink 3 =
      .ok ⟨[[⟨0, 0, 0⟩, ⟨0, 0, 0⟩, ink], [⟨0, 0, 0⟩, ⟨0, 0, 0⟩, ink],
            [⟨0, 0, 0⟩, ⟨0, 0, 0⟩, ink]], 3, 3⟩ := by
  refine ⟨by decide, ?_⟩
  simp only [Bitmap.Point, Bitmap.Fill, Bitmap.fillLoops, forUp_eq_fuel _ _ _ _ _ rfl]
  rfl

/-- C13, at a failing input: `LineX(0, 0, 3, ink)` with the default `size = 1` on
the 2×2 raster `sample2x2` indexes row 2 of a storage of 2 rows: the branch
`size == 1` clamps neither `yb` nor `x`. -/
theorem LineX_thin_unclamped :
    sample2x2.WF ∧ sample2x2.LineX 0 0 3 ink 1 = .error .bad_index := by
  refine ⟨by decide, ?_⟩
  simp only [Bitmap.LineX, forUp_eq_fuel _ _ _ _ _ rfl]
  rfl

/-- C14, at a failing input: `LineY(0, 3, 0, ink, 3)` on the blank 3×3 raster
colours row 0 only, while the band of 3 rows centred on row 0, clipped to the
raster, is rows 0 and 1: in the branch `y < size >> 1` the end is `y + size/2`. -/
theorem LineY_odd_at_top_edge :
    blank3x3.WF ∧
    blank3x3.LineY 0 3 0 ink 3 =
      .ok ⟨[[ink, ink, ink], [⟨0, 0, 0⟩, ⟨0, 0, 0⟩, ⟨0, 0, 0⟩],
            [⟨0, 0, 0⟩, ⟨0, 0, 0⟩, ⟨0, 0, 0⟩]], 3, 3⟩ := by
  refine ⟨by decide, ?_⟩
  simp only [Bitmap.LineY, Bitmap.fillLoops, forUp_eq_fuel _ _ _ _ _ rfl]
  rfl

/-- C15, at a failing input: on the blank 2×2 raster `LineY(0, 1, 0, ink, 2)`
colours the single pixel of row 0, column 0, while `LineX(0, 0, 1, ink, 2)` on
the transposed raster colours two pixels of row 0, whose transpose is column 0:
the two results differ. -/
theorem LineY_not_transposed_LineX :
    blank2x2.WF ∧
    blank2x2.LineY 0 1 0 ink 2 = .ok ⟨[[ink, ⟨0, 0, 0⟩], [⟨0, 0, 0⟩, ⟨0, 0, 0⟩]], 2, 2⟩ ∧
    blank2x2.transpose.LineX 0 0 1 ink 2
      = .ok ⟨[[ink, ink], [⟨0, 0, 0⟩, ⟨0, 0, 0⟩]], 2, 2⟩ ∧
    (⟨[[ink, ink], [⟨0, 0, 0⟩, ⟨0, 0, 0⟩]], 2, 2⟩ : Bitmap Color24).transpose
      ≠ ⟨[[ink, ⟨0, 0, 0⟩], [⟨0, 0, 0⟩, ⟨0, 0, 0⟩]], 2, 2⟩ := by
  refine ⟨by decide, ?_, ?_, by decide⟩
  · simp only [Bitmap.LineY, Bitmap.fillLoops, forUp_eq_fuel _ _ _ _ _ rfl]
    rfl
  · simp only [Bitmap.LineX, Bitmap.fillLoops, forUp_eq_fuel _ _ _ _ _ rfl]
    rfl

/-- Witness for C16: the whole-raster fill of `sample2x2`. -/
theorem FillColor_spec_witness :
    sample2x2.WF ∧
    ∃ r', sample2x2.FillColor ink = .ok r' ∧ r'.width_ = 2 ∧ r'.height_ = 2 ∧
      ∀ x y, x < 2 → y < 2 → r'.at x y = .ok ink :=
  ⟨by decide, FillColor_spec sample2x2 (by decide) ink⟩

/-- Witness for C17: the operations on `sample2x2`, with `sample1x1` and the
raster itself inserted. -/
theorem storage_invariant_witness :
    sample2x2.WF ∧ sample1x1.WF ∧
    (∃ r', sample2x2.resize 4 3 = .ok r' ∧ r'.WF) ∧
    (∃ r', sample2x2.Insert 1 1 (.other sample1x1) = .ok r' ∧ r'.WF) ∧
    (∃ r', sample2x2.Insert 1 1 .itself = .ok r' ∧ r'.WF) ∧
    (∃ r', sample2x2.Trim 0 0 1 1 = .ok r' ∧ r'.WF) := by
  have key := storage_invariant sample2x2 sample1x1 (by decide) (by decide) 4 3
    (by decide) (by decide) 0 0 1 1 1 1 1 ink
  exact ⟨by decide, by decide, key.2.2.2.1, key.2.2.2.2.2.2.2.2.2.2.1,
    key.2.2.2.2.2.2.2.2.2.2.2.1, key.2.2.2.2.2.2.2.2.2.2.2.2⟩

/-- Witness for C18: the pixel `(b, g, r) = (1, 2, 3)` on a little-endian host. -/
theorem Color24_packed_witness :
    (⟨1, 2, 3⟩ : Color24).valid ∧
    Color24.ofUInt32 littleEndianHost (Color24.toUInt32 littleEndianHost ⟨1, 2, 3⟩)
      = ⟨1, 2, 3⟩ ∧
    Color24.toUInt32 littleEndianHost ⟨1, 2, 3⟩ = 1 + 256 * 2 + 65536 * 3 := by
  have key := Color24_packed littleEndianHost ⟨1, 2, 3⟩ (by decide) 305419896
  exact ⟨by decide, key.1, (key.2 rfl).1⟩

/-- C19, at a failing input: on a little-endian host `Write_` emits the 2-byte
value 1 as `01 00`, and `Read_` of those bytes stores 256; on a big-endian
host with 8-byte pointers and `value` at address `0x7FFFFFFFE0F8`, `Write_`
emits `00 00`, the first byte of its local pointer twice, and `Read_` copies the
stream bytes unreversed. -/
theorem Read_of_Write_swapped :
    Write_ littleEndianHost 0 2 1 = [1, 0] ∧
    Read_ littleEndianHost 2 [1, 0] = .ok (256, []) ∧
    Write_ (bigEndianHost (fun _ => 140737488347384)) 140737488347384 2 1 = [0, 0] ∧
    Read_ (bigEndianHost (fun _ => 140737488347384)) 2 [1, 0] = .ok (256, []) := by
  refine ⟨by decide, rfl, by decide, rfl⟩

/-- C20, at a failing input: move-constructing from `sample2x2` leaves the
source with an empty storage and `height_ = width_ = 2`, so `at(0, 0)` on it
passes the bounds check and indexes missing storage; move-assigning
`sample2x2` to `sample1x1` leaves the source with the 1×1 storage and
`height_ = width_ = 2`. -/
theorem moved_from_source_invalid :
    sample2x2.WF ∧ sample1x1.WF ∧
    Bitmap.moveCtor sample2x2 = (sample2x2, ⟨[], 2, 2⟩) ∧
    ¬ (Bitmap.moveCtor sample2x2).2.WF ∧
    (Bitmap.moveCtor sample2x2).2.at 0 0 = .error .bad_index ∧
    Bitmap.moveAssign sample1x1 sample2x2 = (sample2x2, ⟨[[⟨1, 2, 3⟩]], 2, 2⟩) ∧
    ¬ (Bitmap.moveAssign sample1x1 sample2x2).2.WF ∧
    (Bitmap.moveAssign sample1x1 sample2x2).2.at 1 1 = .error .bad_index := by
  refine ⟨by decide, by decide, rfl, by decide, rfl, rfl, by decide, rfl⟩

end BitmapH
